import Mathlib

/-!
# Verification of the rust-lispy tokenizer and parser

Shallow embedding of the repository's core pipeline:
* `src/tok.rs`   — `GreedyTokenizer` (byte-at-a-time scanner with one char of
  lookahead, position tracking, number/identifier/comment handling);
* `src/parser.rs` — `RecursiveDescentParser` (`extract_until_brackets_match`
  plus `recursively_evaluate` over the extracted flat token slice);
* `src/ast.rs`   — the `AST` enum as the file declares it (`ASTFile` below).

Modelling conventions:
* The byte stream is a `List Char`; the Rust code reads one byte at a time and
  casts it to `char`, and all inputs of interest are ASCII, so the character
  classifiers (`is_alphabetic`, `is_alphanumeric`, `is_numeric`) are modelled
  by their ASCII ranges, which agree with the Rust functions on ASCII bytes.
* `f64` literals are modelled by `ℚ`; the only numeric strings the tokenizer
  ever feeds to `parse::<f64>()` consist of digits and dots, on which Rust's
  float grammar accepts exactly `digits ['.' digits*] | '.' digits` and every
  value in the claims is exactly representable, so `ℚ` is faithful here.
  `parse` failure on such strings always displays "invalid float literal".
* Rust loops are written as structurally recursive functions on an explicit
  fuel argument; every loop strictly shrinks the unread input (or the token
  slice), so the supplied fuel (`length + small constant`) always suffices and
  the out-of-fuel branches are unreachable.  Fuel keeps every definition
  kernel-computable so concrete runs can be settled by `decide`/`rfl`.
* Rust panics (out-of-bounds indexing, `unwrap` on `None`, bad slice ranges,
  and the non-exhaustive `match` in `recursively_evaluate`, which has no arm
  for `Eof`/`Ns`/`Defn`/`Quote`/`If`) are modelled by an explicit `panicked`
  outcome, distinct from `Ok`/`Err`.
* The parser consumes the token stream as a finite list of
  `Except TokenizerError TokenAndSpan` items, exactly the iterator interface
  its own test double (`MockyTokenizer`) implements; the pipeline feeds it the
  tokens produced before the `Eof` marker.
-/

/-- `Position` from tok.rs: zero-based line and column ("position"). -/
structure Position where
  line : Nat
  position : Nat
  deriving DecidableEq, Repr

/-- `Token` from tok.rs (the full enum, including `Eof` and all keywords). -/
inductive Token where
  | Eof
  | OpenParen
  | CloseParen
  | Ns
  | Def
  | Defn
  | Fn
  | Quote
  | If
  | Identifier (name : String)
  | Number (val : ℚ)
  | Unknown (c : Char)
  deriving DecidableEq, Repr

/-- `Token::from_str` from tok.rs: the reserved-keyword table. -/
def tokenFromStr (s : String) : Option Token :=
  if s = "ns" then some .Ns
  else if s = "def" then some .Def
  else if s = "defn" then some .Defn
  else if s = "fn" then some .Fn
  else if s = "quote" then some .Quote
  else if s = "if" then some .If
  else none

/-- `Token::from_char` from tok.rs: single-character operator identifiers. -/
def tokenFromChar (c : Char) : Option Token :=
  if c = '+' then some (.Identifier "+")
  else if c = '-' then some (.Identifier "-")
  else if c = '*' then some (.Identifier "*")
  else if c = '/' then some (.Identifier "/")
  else none

/-- `TokenAndSpan` from tok.rs (`from`/`to` are Lean keywords, hence
`fromPos`/`toPos`). -/
structure TokenAndSpan where
  token : Token
  fromPos : Position
  toPos : Position
  deriving DecidableEq, Repr

/-- `CharAndPosition` from tok.rs: the one-character lookahead. -/
structure CharAndPosition where
  chr : Option Char
  line : Nat
  position : Nat
  deriving DecidableEq, Repr

/-- `TokenizerError` from tok.rs.  `IoError` wraps a low-level read failure;
reading from a pure list never fails, so it is never produced here. -/
inductive TokenizerError where
  | IoError (msg : String)
  | ReadError (message : String) (fromPos toPos : Position)
  deriving DecidableEq, Repr

instance {ε α : Type} [DecidableEq ε] [DecidableEq α] : DecidableEq (Except ε α) := fun a b =>
  match a, b with
  | .ok x, .ok y =>
      if h : x = y then .isTrue (by rw [h]) else .isFalse fun hh => h (Except.ok.inj hh)
  | .ok _, .error _ => .isFalse fun hh => Except.noConfusion hh
  | .error _, .ok _ => .isFalse fun hh => Except.noConfusion hh
  | .error x, .error y =>
      if h : x = y then .isTrue (by rw [h]) else .isFalse fun hh => h (Except.error.inj hh)

/-- An apostrophe, kept out of string literals. -/
def squote : String := String.mk [Char.ofNat 39]

/-- The `ReadError` message built by `TokenizerError::from` in tok.rs for a
numeric literal that fails to parse; Rust's `ParseFloatError` displays as
"invalid float literal" for every digits-and-dots failure. -/
def numberErrorMessage (text : String) : String :=
  "Unable to parse number " ++ squote ++ text ++ squote ++ ": invalid float literal"

/-- `GreedyTokenizer` from tok.rs, with the byte stream as a list. -/
structure GreedyTokenizer where
  inbuf : List Char
  line : Nat
  position : Nat
  currentChar : CharAndPosition
  deriving DecidableEq, Repr

/-- `GreedyTokenizer::step_next_char`: pull one byte; record it (with the
position it occupies) as the lookahead, then advance the position, starting a
new line after a newline or carriage return. -/
def stepNextChar (s : GreedyTokenizer) : GreedyTokenizer :=
  match s.inbuf with
  | c :: rest =>
      { inbuf := rest
        line := if c = '\n' ∨ c = '\r' then s.line + 1 else s.line
        position := if c = '\n' ∨ c = '\r' then 0 else s.position + 1
        currentChar := ⟨some c, s.line, s.position⟩ }
  | [] => { s with currentChar := ⟨none, s.line, s.position⟩ }

/-- `GreedyTokenizer::new`: zeroed state, then one `step_next_char`. -/
def GreedyTokenizer.new (cs : List Char) : GreedyTokenizer :=
  stepNextChar ⟨cs, 0, 0, ⟨none, 0, 0⟩⟩

/-- Rust `char::is_alphabetic`, restricted to the ASCII range the byte-wise
scanner actually sees in the claims. -/
def isAlphabeticChar (c : Char) : Bool :=
  (decide ('A' ≤ c) && decide (c ≤ 'Z')) || (decide ('a' ≤ c) && decide (c ≤ 'z'))

/-- Rust `char::is_numeric` on ASCII: a decimal digit. -/
def isDigitChar (c : Char) : Bool :=
  decide ('0' ≤ c) && decide (c ≤ '9')

/-- The character class of tok.rs's `is_identifier_like`
(`is_alphanumeric() || c == '_'`) on ASCII. -/
def isIdentifierLikeChar (c : Char) : Bool :=
  isAlphabeticChar c || isDigitChar c || c = '_'

/-- The character class of tok.rs's `is_number_like`
(`is_numeric() || c == '.'`) on ASCII. -/
def isNumberLikeChar (c : Char) : Bool :=
  isDigitChar c || c = '.'

/-- `is_alphabetic` from tok.rs (on the lookahead). -/
def isAlphabetic (t : CharAndPosition) : Bool :=
  match t.chr with
  | some c => isAlphabeticChar c
  | none => false

/-- `is_identifier_like` from tok.rs (on the lookahead). -/
def isIdentifierLike (t : CharAndPosition) : Bool :=
  match t.chr with
  | some c => isIdentifierLikeChar c
  | none => false

/-- `is_number_like` from tok.rs (on the lookahead). -/
def isNumberLike (t : CharAndPosition) : Bool :=
  match t.chr with
  | some c => isNumberLikeChar c
  | none => false

/-- Numeric value of a digit string. -/
def digitsVal (cs : List Char) : Nat :=
  cs.foldl (fun a c => a * 10 + (c.toNat - 48)) 0

/-- Rust `str::parse::<f64>()` on the digits-and-dots strings the number
branch of `get_token` produces: accepted iff the string is
`digits+ ('.' digits*)?` or `'.' digits+`; the value is the exact decimal. -/
def floatOfNumChars (cs : List Char) : Option ℚ :=
  match cs.splitOn '.' with
  | [ip] =>
      if ip ≠ [] ∧ ip.all isDigitChar then some (digitsVal ip : ℚ) else none
  | [ip, fp] =>
      if (ip ≠ [] ∨ fp ≠ []) ∧ ip.all isDigitChar ∧ fp.all isDigitChar then
        some ((digitsVal ip : ℚ) + (digitsVal fp : ℚ) / (10 : ℚ) ^ fp.length)
      else none
  | _ => none

/-- The whitespace-skipping loop at the top of `get_token`
(`while tok.chr == Some(SPACE_CHAR) { step_next_char }`), on explicit fuel.
Each iteration consumes a byte (or hits end of stream and stops next check),
so `inbuf.length + 2` fuel always completes the loop. -/
def skipSpacesF : Nat → GreedyTokenizer → GreedyTokenizer
  | 0, s => s
  | fuel + 1, s =>
      if s.currentChar.chr = some ' ' then skipSpacesF fuel (stepNextChar s) else s

/-- The whitespace-skipping loop with its always-sufficient fuel. -/
def skipSpaces (s : GreedyTokenizer) : GreedyTokenizer :=
  skipSpacesF (s.inbuf.length + 2) s

/-- The comment-skipping loop of `get_token`
(`while chr != \n && chr != \r && chr != None { step_next_char }`). -/
def skipCommentF : Nat → GreedyTokenizer → GreedyTokenizer
  | 0, s => s
  | fuel + 1, s =>
      match s.currentChar.chr with
      | some c =>
          if c = '\n' ∨ c = '\r' then s else skipCommentF fuel (stepNextChar s)
      | none => s

/-- The comment-skipping loop with its always-sufficient fuel. -/
def skipComment (s : GreedyTokenizer) : GreedyTokenizer :=
  skipCommentF (s.inbuf.length + 2) s

/-- The greedy consuming loops of the identifier and number branches of
`get_token`: push the current character and step while the lookahead satisfies
the class predicate.  (The predicates are false on `none`, so the `unwrap` in
the Rust loop body never panics; the inner `none` case is unreachable.) -/
def readWhileF : Nat → (CharAndPosition → Bool) → GreedyTokenizer →
    List Char × GreedyTokenizer
  | 0, _, s => ([], s)
  | fuel + 1, p, s =>
      if p s.currentChar then
        match s.currentChar.chr with
        | some c =>
            let r := readWhileF fuel p (stepNextChar s)
            (c :: r.1, r.2)
        | none => ([], s)
      else ([], s)

/-- The greedy consuming loop with its always-sufficient fuel. -/
def readWhile (p : CharAndPosition → Bool) (s : GreedyTokenizer) :
    List Char × GreedyTokenizer :=
  readWhileF (s.inbuf.length + 2) p s

/-- `GreedyTokenizer::get_token` from tok.rs, returning the result together
with the mutated tokenizer state.  Branch order follows the source: skip
spaces; skip one `#`-comment (note: the source does **not** loop back, and the
terminating newline is left as the lookahead); parens; identifier; number;
then the final step-and-classify block (operator chars, `Unknown`, `Eof`). -/
def getToken (s : GreedyTokenizer) :
    Except TokenizerError TokenAndSpan × GreedyTokenizer :=
  let s1 := skipSpaces s
  let s2 := if s1.currentChar.chr = some '#' then skipComment s1 else s1
  let tok := s2.currentChar
  if tok.chr = some '(' then
    (.ok ⟨.OpenParen, ⟨tok.line, tok.position⟩, ⟨tok.line, tok.position⟩⟩,
      stepNextChar s2)
  else if tok.chr = some ')' then
    (.ok ⟨.CloseParen, ⟨tok.line, tok.position⟩, ⟨tok.line, tok.position⟩⟩,
      stepNextChar s2)
  else if isAlphabetic tok then
    let fromPos : Position := ⟨tok.line, tok.position⟩
    let r := readWhile isIdentifierLike s2
    let toPos : Position := ⟨r.2.currentChar.line, r.2.currentChar.position - 1⟩
    match tokenFromStr (String.mk r.1) with
    | some reserved => (.ok ⟨reserved, fromPos, toPos⟩, r.2)
    | none => (.ok ⟨.Identifier (String.mk r.1), fromPos, toPos⟩, r.2)
  else if isNumberLike tok then
    let fromPos : Position := ⟨tok.line, tok.position⟩
    let r := readWhile isNumberLike s2
    let toPos : Position := ⟨r.2.currentChar.line, r.2.currentChar.position - 1⟩
    match floatOfNumChars r.1 with
    | some v => (.ok ⟨.Number v, fromPos, toPos⟩, r.2)
    | none =>
        (.error (.ReadError (numberErrorMessage (String.mk r.1)) fromPos toPos), r.2)
  else
    let s3 := stepNextChar s2
    match tok.chr with
    | some c =>
        match tokenFromChar c with
        | some t => (.ok ⟨t, ⟨tok.line, tok.position⟩, ⟨tok.line, tok.position⟩⟩, s3)
        | none =>
            (.ok ⟨.Unknown c, ⟨tok.line, tok.position⟩, ⟨tok.line, tok.position⟩⟩, s3)
    | none => (.ok ⟨.Eof, ⟨tok.line, tok.position⟩, ⟨tok.line, tok.position⟩⟩, s3)

/-- Run `get_token` repeatedly, collecting every result produced strictly
before the `Eof` marker (errors are collected and scanning continues, as the
tokenizer itself recovers after a bad numeric literal).  Every non-`Eof`
result consumes at least one byte, so `inbuf.length + 3` fuel suffices. -/
def tokenizeAllF : Nat → GreedyTokenizer →
    List (Except TokenizerError TokenAndSpan)
  | 0, _ => []
  | fuel + 1, s =>
      match getToken s with
      | (.ok ts, s') =>
          if ts.token = .Eof then [] else .ok ts :: tokenizeAllF fuel s'
      | (.error e, s') => .error e :: tokenizeAllF fuel s'

/-- All pre-`Eof` results from a tokenizer state. -/
def tokenizeAll (s : GreedyTokenizer) : List (Except TokenizerError TokenAndSpan) :=
  tokenizeAllF (s.inbuf.length + 3) s

/-- The token stream of an input text: all pre-`Eof` results of a fresh
`GreedyTokenizer` over it. -/
def tokenizeInput (cs : List Char) : List (Except TokenizerError TokenAndSpan) :=
  tokenizeAll (GreedyTokenizer.new cs)

/-- Just the tokens (of the successful results) of an input text. -/
def tokenList (cs : List Char) : List Token :=
  (tokenizeInput cs).filterMap fun r =>
    match r with
    | .ok ts => some ts.token
    | .error _ => none

/-- The `AST` type as `parser.rs` (and its test suite) uses it: the
anonymous-function variant carries a parameter list and a statement list.
(`ast.rs` as committed declares a different `FunctionExpr`; see `ASTFile`.) -/
inductive AST where
  | NumberExpr (val : ℚ)
  | VariableExpr (name : String)
  | EvaluateExpr (callee : String) (args : List AST)
  | FunctionExpr (parameters : List String) (statements : List AST)
  | ListExpr (vals : List AST)

/-- The `AST` enum exactly as `src/ast.rs` declares it: its `FunctionExpr`
carries `name`, `parameters` and `body` (a single boxed AST) — it has no
`statements` field, so the value `parser.rs` constructs does not typecheck
against this declaration. -/
inductive ASTFile where
  | NumberExpr (val : ℚ)
  | VariableExpr (name : String)
  | EvaluateExpr (callee : String) (args : List ASTFile)
  | FunctionExpr (name : String) (parameters : List String) (body : ASTFile)
  | ListExpr (vals : List ASTFile)

/-- `ParseError` from parser.rs. -/
inductive ParseError where
  | MismatchedParens (pos : Position)
  | FunctionNeedsABody
  | UnexpectedEof (pos : Position)
  | UnexpectedTokenError (expected found : Option Token) (fromPos toPos : Position)
  | UnexpectedExpressionError (expected found : Option AST) (position : Position)
  | TokenizerError (e : TokenizerError)
  | UnknownError (msg : String)

/-- Outcome of a parser routine: `Ok`, a returned `ParseError`, or a Rust
panic (out-of-bounds index, `unwrap` on `None`, bad slice range, or the
non-exhaustive token `match`). -/
inductive Outcome (α : Type) where
  | ok (val : α)
  | err (e : ParseError)
  | panicked (msg : String)

/-- Loop body of `extract_until_brackets_match`: pull items, track the paren
depth, push every spanned token, and stop as soon as the depth is `≤ 0` after
a push; afterwards a nonzero depth is `MismatchedParens` at the `from`
position of the last token seen (Rust unwraps `last()`, so an empty
extraction with nonzero depth — impossible — would panic). -/
def extractAux : List (Except TokenizerError TokenAndSpan) → Int →
    List TokenAndSpan →
    Outcome (List TokenAndSpan × List (Except TokenizerError TokenAndSpan))
  | [], count, acc =>
      if count ≠ 0 then
        match acc.getLast? with
        | some l => .err (.MismatchedParens l.fromPos)
        | none => .panicked "called unwrap on None"
      else .ok (acc, [])
  | item :: rest, count, acc =>
      match item with
      | .error e => .err (.TokenizerError e)
      | .ok ts =>
          let count' := count +
            (match ts.token with
             | .OpenParen => 1
             | .CloseParen => -1
             | _ => 0)
          let acc' := acc ++ [ts]
          if count' ≤ 0 then
            if count' ≠ 0 then
              match acc'.getLast? with
              | some l => .err (.MismatchedParens l.fromPos)
              | none => .panicked "called unwrap on None"
            else .ok (acc', rest)
          else extractAux rest count' acc'

/-- `RecursiveDescentParser::extract_until_brackets_match` from parser.rs,
also returning the unconsumed remainder of the stream. -/
def extractUntilBracketsMatch (items : List (Except TokenizerError TokenAndSpan)) :
    Outcome (List TokenAndSpan × List (Except TokenizerError TokenAndSpan)) :=
  extractAux items 0 []

/-- Loop body of `slice_until_tokens_match`: same depth scan over an
already-extracted slice, returning the prefix up to the point the depth
first returns to `≤ 0`. -/
def sliceAux : List TokenAndSpan → Int → List TokenAndSpan →
    Outcome (List TokenAndSpan)
  | [], count, acc =>
      if count ≠ 0 then
        match acc.getLast? with
        | some l => .err (.MismatchedParens l.fromPos)
        | none => .panicked "index out of bounds"
      else .ok acc
  | t :: rest, count, acc =>
      let count' := count +
        (match t.token with
         | .OpenParen => 1
         | .CloseParen => -1
         | _ => 0)
      let acc' := acc ++ [t]
      if count' ≤ 0 then
        if count' ≠ 0 then .err (.MismatchedParens t.fromPos)
        else .ok acc'
      else sliceAux rest count' acc'

/-- `RecursiveDescentParser::slice_until_tokens_match` from parser.rs. -/
def sliceUntilTokensMatch (ts : List TokenAndSpan) : Outcome (List TokenAndSpan) :=
  sliceAux ts 0 []

/-- `RecursiveDescentParser::find_tokens_within_brackets` from parser.rs:
`slice_until_tokens_match` then `&slc[1..slc.len() - 1]`; a slice shorter
than two tokens makes that range panic. -/
def findTokensWithinBrackets (ts : List TokenAndSpan) : Outcome (List TokenAndSpan) :=
  match sliceUntilTokensMatch ts with
  | .ok slc =>
      if slc.length < 2 then .panicked "slice index out of bounds"
      else .ok ((slc.drop 1).dropLast)
  | .err e => .err e
  | .panicked m => .panicked m

/-- The parameter-collecting loop of the `Fn` arm: every token inside the
parameter brackets must be an `Identifier`. -/
def collectParams : List TokenAndSpan → Except ParseError (List String)
  | [] => .ok []
  | a :: rest =>
      match a.token with
      | .Identifier argName =>
          match collectParams rest with
          | .ok ps => .ok (argName :: ps)
          | .error e => .error e
      | _ => .error (.UnexpectedTokenError (some (.Identifier "_"))
          (some a.token) a.fromPos a.toPos)

/-- Prepend a reduced node and add the tokens it consumed to the count of a
continued reduction. -/
def contWith (node : AST) (k : Nat) (r : Outcome (List AST × Nat)) :
    Outcome (List AST × Nat) :=
  match r with
  | .ok (res, n) => .ok (node :: res, k + n)
  | .err e => .err e
  | .panicked m => .panicked m

/-- `RecursiveDescentParser::recursively_evaluate` from parser.rs, written as
recursion over the suffix of the token slice starting at the loop's `parsed`
index (so `tokens_and_spans[parsed + i]` is index `i` here).  Per-arm notes:
* `Def`: reads index 1 unchecked (panic when absent); on a following
  identifier it reduces everything after it, rejects a multi-node right-hand
  side via index 3 (`UnexpectedExpressionError`), pops the reduced list with
  `unwrap` (panic when empty), and advances by `2 + rec_parsed`.
* `Fn`: reads index 1 unchecked; requires `OpenParen`, collects the bracketed
  parameters, requires a bracketed body at index `total + 1` (read unchecked),
  reduces the body's interior, rejects `rec_parsed == 0` with
  `FunctionNeedsABody`, and advances by `total + 2 + rec_parsed + 1`.
* `OpenParen`: reduces the rest; a leading `VariableExpr` becomes the callee,
  a sole `EvaluateExpr`/`FunctionExpr` is re-emitted, anything else is
  `UnexpectedExpressionError` at the `from` of index `rec_parsed`.
* `CloseParen` stops without counting itself; `Unknown` is an error; the
  source `match` has no arm for `Eof`/`Ns`/`Defn`/`Quote`/`If` (it does not
  compile against tok.rs's `Token`), modelled as a panic.
Every recursive call is on a strictly shorter list, so `length + 1` fuel
always suffices. -/
def recursivelyEvaluateF : Nat → List TokenAndSpan → Outcome (List AST × Nat)
  | 0, _ => .panicked "out of fuel"
  | _ + 1, [] => .ok ([], 0)
  | fuel + 1, t0 :: rest =>
      match t0.token with
      | .Number v => contWith (.NumberExpr v) 1 (recursivelyEvaluateF fuel rest)
      | .Identifier name =>
          contWith (.VariableExpr name) 1 (recursivelyEvaluateF fuel rest)
      | .Def =>
          match rest with
          | [] => .panicked "index out of bounds"
          | t1 :: rest2 =>
              match t1.token with
              | .Identifier name =>
                  (match recursivelyEvaluateF fuel rest2 with
                   | .ok (rhs, recParsed) =>
                       if rhs.length > 1 then
                         match rest2.get? 1 with
                         | none => .panicked "index out of bounds"
                         | some t3 =>
                             .err (.UnexpectedExpressionError none (rhs.get? 1)
                               t3.fromPos)
                       else
                         match rhs.getLast? with
                         | none => .panicked "called unwrap on None"
                         | some rhsVal =>
                             contWith
                               (.EvaluateExpr "__assign"
                                 [.VariableExpr name, rhsVal])
                               (2 + recParsed)
                               (recursivelyEvaluateF fuel (rest2.drop recParsed))
                   | .err e => .err e
                   | .panicked m => .panicked m)
              | _ =>
                  .err (.UnexpectedTokenError (some (.Identifier "_"))
                    (some t1.token) t1.fromPos t1.toPos)
      | .Fn =>
          match rest with
          | [] => .panicked "index out of bounds"
          | t1 :: _ =>
              match t1.token with
              | .OpenParen =>
                  (match findTokensWithinBrackets rest with
                   | .ok argsAndSpans =>
                       (match collectParams argsAndSpans with
                        | .error e => .err e
                        | .ok parameters =>
                            let total := 2 + parameters.length
                            match rest.get? total with
                            | none => .panicked "index out of bounds"
                            | some tb =>
                                if tb.token ≠ .OpenParen then
                                  .err (.UnexpectedTokenError (some .OpenParen)
                                    (some tb.token) tb.fromPos tb.toPos)
                                else
                                  match findTokensWithinBrackets (rest.drop total) with
                                  | .ok bodyTokens =>
                                      (match recursivelyEvaluateF fuel bodyTokens with
                                       | .ok (statements, recParsed) =>
                                           if recParsed = 0 then
                                             .err .FunctionNeedsABody
                                           else
                                             let total2 := total + 2 + recParsed
                                             contWith
                                               (.FunctionExpr parameters statements)
                                               (total2 + 1)
                                               (recursivelyEvaluateF fuel
                                                 (rest.drop total2))
                                       | .err e => .err e
                                       | .panicked m => .panicked m)
                                  | .err e => .err e
                                  | .panicked m => .panicked m)
                   | .err e => .err e
                   | .panicked m => .panicked m)
              | _ =>
                  .err (.UnexpectedTokenError (some .OpenParen) (some t1.token)
                    t1.fromPos t1.toPos)
      | .OpenParen =>
          (match recursivelyEvaluateF fuel rest with
           | .ok (stuff, recParsed) =>
               (match stuff with
                | .VariableExpr name :: rest' =>
                    contWith (.EvaluateExpr name rest') (recParsed + 1)
                      (recursivelyEvaluateF fuel (rest.drop recParsed))
                | [.EvaluateExpr callee args] =>
                    contWith (.EvaluateExpr callee args) (recParsed + 1)
                      (recursivelyEvaluateF fuel (rest.drop recParsed))
                | [.FunctionExpr parameters statements] =>
                    contWith (.FunctionExpr parameters statements) (recParsed + 1)
                      (recursivelyEvaluateF fuel (rest.drop recParsed))
                | _ =>
                    match (t0 :: rest).get? recParsed with
                    | none => .panicked "index out of bounds"
                    | some tp =>
                        .err (.UnexpectedExpressionError
                          (some (.VariableExpr "_")) stuff.head? tp.fromPos))
           | .err e => .err e
           | .panicked m => .panicked m)
      | .CloseParen => .ok ([], 0)
      | .Unknown c =>
          .err (.UnexpectedTokenError none (some (.Unknown c)) t0.fromPos t0.toPos)
      | _ => .panicked "match on token has no arm for this variant"

/-- `recursively_evaluate` with its always-sufficient fuel. -/
def recursivelyEvaluate (ts : List TokenAndSpan) : Outcome (List AST × Nat) :=
  recursivelyEvaluateF (ts.length + 1) ts

/-- `RecursiveDescentParser::next_expression` from parser.rs: extract one
bracket-balanced group; an empty extraction is `Ok(None)`; otherwise reduce
and demand exactly one resulting node (`pop().unwrap()` of a singleton). -/
def nextExpression (items : List (Except TokenizerError TokenAndSpan)) :
    Outcome (Option AST) :=
  match extractUntilBracketsMatch items with
  | .ok (tokensAndSpans, _) =>
      if tokensAndSpans.isEmpty then .ok none
      else
        match recursivelyEvaluate tokensAndSpans with
        | .ok (asts, _) =>
            match asts with
            | [a] => .ok (some a)
            | [] => .err (.UnknownError "Here we are but how")
            | _ => .err (.UnknownError
                "Not sure how we got here, but we have multiple statements with the same open/close brackets")
        | .err e => .err e
        | .panicked m => .panicked m
  | .err e => .err e
  | .panicked m => .panicked m

/-- The whole pipeline: tokenize the text and hand the parser its one first
top-level expression, exactly as the repository's own parser tests drive
`next_expression` over a finite token stream. -/
def parseInput (cs : List Char) : Outcome (Option AST) :=
  nextExpression (tokenizeInput cs)

/-- Positions assigned to each character of the input by the tokenizer's
bookkeeping: one column per character, line incremented and column reset
after a newline or carriage return. -/
def annotatePositions : List Char → Nat → Nat → List (Char × Position)
  | [], _, _ => []
  | c :: rest, line, pos =>
      (c, ⟨line, pos⟩) ::
        (if c = '\n' ∨ c = '\r' then annotatePositions rest (line + 1) 0
         else annotatePositions rest line (pos + 1))

/-- Lexicographic order on source positions. -/
def posLE (p q : Position) : Bool :=
  decide (p.line < q.line) || (decide (p.line = q.line) && decide (p.position ≤ q.position))

/-- The source text covered by an inclusive span: the characters of the input
whose positions lie between `fromPos` and `toPos`. -/
def spanText (cs : List Char) (fromPos toPos : Position) : List Char :=
  (annotatePositions cs 0 0).filterMap fun cp =>
    if posLE fromPos cp.2 && posLE cp.2 toPos then some cp.1 else none

/-- Concatenation, in stream order, of the source text covered by the spans
of all successfully produced tokens. -/
def spanConcat (cs : List Char) (items : List (Except TokenizerError TokenAndSpan)) :
    List Char :=
  (items.filterMap fun it =>
    match it with
    | .ok ts => some (spanText cs ts.fromPos ts.toPos)
    | .error _ => none).flatten

/-- Spec-side comparator for the round-trip claim, following the spec's words:
the input with all whitespace and all comment content (a comment runs from
`#` to the next newline, carriage return, or end of stream) removed.  Each
step strictly shrinks the list, so `length + 1` fuel always suffices. -/
def specStripF : Nat → List Char → List Char
  | 0, _ => []
  | _ + 1, [] => []
  | fuel + 1, c :: rest =>
      if c = '#' then
        specStripF fuel (rest.dropWhile fun d => d ≠ '\n' ∧ d ≠ '\r')
      else if c = ' ' ∨ c = '\n' ∨ c = '\r' then specStripF fuel rest
      else c :: specStripF fuel rest

/-- The input with all whitespace and comment content removed (spec's words). -/
def specStripWsComments (cs : List Char) : List Char :=
  specStripF (cs.length + 1) cs

/-- No newline or carriage return occurs in the input. -/
def noNl (cs : List Char) : Prop := ∀ c ∈ cs, c ≠ '\n' ∧ c ≠ '\r'

instance (cs : List Char) : Decidable (noNl cs) := by
  unfold noNl; infer_instance

/-- Every item of a token stream is a successful token. -/
def allOk (items : List (Except TokenizerError TokenAndSpan)) : Bool :=
  items.all fun it =>
    match it with
    | .ok _ => true
    | .error _ => false

/-- A reserved-keyword token (the lexer's keyword classifications). -/
def isReservedKeyword : Token → Bool
  | .Ns | .Def | .Defn | .Fn | .Quote | .If => true
  | _ => false

/-!
## Sanity checks: the repository's own test vectors

These mirror assertions from the `#[cfg(test)]` modules of tok.rs and
parser.rs, validating the embedding against the source's test suite.
-/

/-- tok.rs test `it_handles_numeric_token` (first assertion): value and span
of a numeric literal. -/
theorem sanity_numeric_token :
    tokenizeInput "120".toList = [.ok ⟨.Number 120, ⟨0, 0⟩, ⟨0, 2⟩⟩] := by decide

/-- tok.rs test `it_handles_identifier_token`: greedy alphanumeric run. -/
theorem sanity_identifier_token :
    tokenizeInput "some_1dentifier".toList =
      [.ok ⟨.Identifier "some_1dentifier", ⟨0, 0⟩, ⟨0, 14⟩⟩] := by decide

/-- parser.rs test `it_parses_expressions_with_args_that_are_expressions`. -/
theorem sanity_nested_call :
    parseInput "(something 1 (something_else 2))".toList =
      .ok (some (.EvaluateExpr "something"
        [.NumberExpr 1, .EvaluateExpr "something_else" [.NumberExpr 2]])) := rfl

/-- parser.rs test `it_parses_a_function_definition_into_a_function`
(function with args). -/
theorem sanity_fn_with_args :
    parseInput "(fn (arg1 arg2) (contents))".toList =
      .ok (some (.FunctionExpr ["arg1", "arg2"] [.VariableExpr "contents"])) := rfl

/-!
## Claim theorems
-/

/-- Claim C1: tokenizing `"(+ 1 2)"` yields exactly `OpenParen`,
`Identifier "+"`, `Number 1.0`, `Number 2.0`, `CloseParen` before
end-of-input, and `next_expression` on that stream returns
`EvaluateExpr "+" [NumberExpr 1.0, NumberExpr 2.0]`. -/
theorem c1_plus_one_two :
    tokenList "(+ 1 2)".toList =
      [.OpenParen, .Identifier "+", .Number 1, .Number 2, .CloseParen] ∧
    parseInput "(+ 1 2)".toList =
      .ok (some (.EvaluateExpr "+" [.NumberExpr 1, .NumberExpr 2])) :=
  ⟨by decide, rfl⟩

/-- Claim C2, counterexample: a bare `def` — the claim's own example of a
`Def` keyword outside the head of a parenthesized form — does **not** make
`next_expression` fail with `UnexpectedTokenError`: the `Def` arm reads the
token after the keyword without a bounds check, so the parse aborts (panic),
returning neither `Ok` nor any `ParseError`. -/
theorem c2_counterexample :
    parseInput "def".toList = .panicked "index out of bounds" ∧
    ∀ e : ParseError, parseInput "def".toList ≠ .err e :=
  ⟨rfl, fun _ h => Outcome.noConfusion h⟩

/-- Claim C2 as amended: a `Def` (resp. `Fn`) keyword token that is
immediately followed by another token is processed by the keyword's own arm
wherever it occurs, and when that following token is not an `Identifier`
(resp. not an `OpenParen`) the reduction fails with `UnexpectedTokenError`
carrying the following token's span — e.g. `"(+ def 2)"` is such a syntax
error — but a `Def`/`Fn` with no following token in its group (e.g. a bare
`def`) aborts with an out-of-bounds panic instead of returning an error. -/
theorem c2_amended :
    (∀ (f t : Position) (ts : TokenAndSpan) (rest : List TokenAndSpan),
      (∀ name, ts.token ≠ .Identifier name) →
      recursivelyEvaluate (⟨.Def, f, t⟩ :: ts :: rest) =
        .err (.UnexpectedTokenError (some (.Identifier "_")) (some ts.token)
          ts.fromPos ts.toPos)) ∧
    (∀ (f t : Position) (ts : TokenAndSpan) (rest : List TokenAndSpan),
      ts.token ≠ .OpenParen →
      recursivelyEvaluate (⟨.Fn, f, t⟩ :: ts :: rest) =
        .err (.UnexpectedTokenError (some .OpenParen) (some ts.token)
          ts.fromPos ts.toPos)) ∧
    parseInput "(+ def 2)".toList =
      .err (.UnexpectedTokenError (some (.Identifier "_")) (some (.Number 2))
        ⟨0, 7⟩ ⟨0, 7⟩) := by
  refine ⟨?_, ?_, rfl⟩
  · intro f t ts rest h
    obtain ⟨tok, f2, t2⟩ := ts
    cases tok <;> first
      | rfl
      | exact absurd rfl (h _)
  · intro f t ts rest h
    obtain ⟨tok, f2, t2⟩ := ts
    cases tok <;> first
      | rfl
      | exact absurd rfl h

/-- Witness for `c2_amended` at concrete inputs: a `Def` followed by a
`Number` and an `Fn` followed by a `Number`. -/
theorem c2_amended_witness :
    recursivelyEvaluate [⟨.Def, ⟨0, 0⟩, ⟨0, 2⟩⟩, ⟨.Number 7, ⟨0, 4⟩, ⟨0, 4⟩⟩] =
      .err (.UnexpectedTokenError (some (.Identifier "_")) (some (.Number 7))
        ⟨0, 4⟩ ⟨0, 4⟩) ∧
    recursivelyEvaluate [⟨.Fn, ⟨0, 0⟩, ⟨0, 1⟩⟩, ⟨.Number 7, ⟨0, 3⟩, ⟨0, 3⟩⟩] =
      .err (.UnexpectedTokenError (some .OpenParen) (some (.Number 7))
        ⟨0, 3⟩ ⟨0, 3⟩) :=
  ⟨c2_amended.1 ⟨0, 0⟩ ⟨0, 2⟩ ⟨.Number 7, ⟨0, 4⟩, ⟨0, 4⟩⟩ []
      (fun _ h => Token.noConfusion h),
    c2_amended.2.1 ⟨0, 0⟩ ⟨0, 1⟩ ⟨.Number 7, ⟨0, 3⟩, ⟨0, 3⟩⟩ []
      (fun h => Token.noConfusion h)⟩

/-- Claim C3, counterexample: the input `"\n"` consists only of whitespace,
yet the tokenizer produces an `Unknown` token (only the space character is
skipped as whitespace) and the parser returns an error rather than
`Ok(None)`. -/
theorem c3_counterexample :
    tokenizeInput "\n".toList = [.ok ⟨.Unknown '\n', ⟨0, 0⟩, ⟨0, 0⟩⟩] ∧
    tokenizeInput "\n".toList ≠ [] ∧
    parseInput "\n".toList =
      .err (.UnexpectedTokenError none (some (.Unknown '\n')) ⟨0, 0⟩ ⟨0, 0⟩) ∧
    parseInput "\n".toList ≠ .ok none :=
  ⟨rfl, fun h => List.noConfusion h, rfl, fun h => Outcome.noConfusion h⟩

/-- Claim C4, counterexample: on `"(fn () )"` the body-bracket check of the
`Fn` arm fires first — the token after the empty parameter list is the outer
`CloseParen`, not the required `OpenParen` — so `next_expression` returns
`UnexpectedTokenError`, not `FunctionNeedsABody`. -/
theorem c4_counterexample :
    parseInput "(fn () )".toList =
      .err (.UnexpectedTokenError (some .OpenParen) (some .CloseParen)
        ⟨0, 7⟩ ⟨0, 7⟩) ∧
    parseInput "(fn () )".toList ≠ .err .FunctionNeedsABody := by
  refine ⟨rfl, ?_⟩
  intro h
  rw [show parseInput "(fn () )".toList =
      .err (.UnexpectedTokenError (some .OpenParen) (some .CloseParen)
        ⟨0, 7⟩ ⟨0, 7⟩) from rfl] at h
  exact absurd (Outcome.err.inj h) (by intro hh; exact ParseError.noConfusion hh)

/-- Claim C4 as amended: `"(fn () )"` fails with
`UnexpectedTokenError{expected: OpenParen, found: CloseParen}`; the
`FunctionNeedsABody` error is produced when the body brackets are present but
their interior reduces to zero statements, e.g. `"(fn () ())"`. -/
theorem c4_amended :
    parseInput "(fn () )".toList =
      .err (.UnexpectedTokenError (some .OpenParen) (some .CloseParen)
        ⟨0, 7⟩ ⟨0, 7⟩) ∧
    parseInput "(fn () ())".toList = .err .FunctionNeedsABody :=
  ⟨rfl, rfl⟩

/-- Claim C5: a lone `CloseParen` with no matching `OpenParen` makes
`next_expression` fail with `MismatchedParens`, and a lone `OpenParen` whose
match never arrives before end-of-stream fails the same way, each carrying
the position of the last token seen; in particular the pipeline on the texts
`")"` and `"("` fails at position (0,0). -/
theorem c5_mismatched_parens :
    (∀ f t : Position,
      nextExpression [.ok ⟨.CloseParen, f, t⟩] = .err (.MismatchedParens f)) ∧
    (∀ f t : Position,
      nextExpression [.ok ⟨.OpenParen, f, t⟩] = .err (.MismatchedParens f)) ∧
    parseInput ")".toList = .err (.MismatchedParens ⟨0, 0⟩) ∧
    parseInput "(".toList = .err (.MismatchedParens ⟨0, 0⟩) :=
  ⟨fun _ _ => rfl, fun _ _ => rfl, rfl, rfl⟩

/-- Claim C7, counterexample: `"defn"` starts with an alphabetic character
and is alphanumeric throughout, is not one of `def`, `fn`, `ns`, `quote`,
`if`, and yet the tokenizer emits the reserved keyword token `Defn` for it
rather than `Identifier("defn")`. -/
theorem c7_counterexample :
    tokenList "defn".toList = [.Defn] ∧
    isReservedKeyword .Defn = true ∧
    ("defn" : String) ∉ (["def", "fn", "ns", "quote", "if"] : List String) ∧
    Token.Defn ≠ .Identifier "defn" := by
  refine ⟨by decide, rfl, by decide, fun h => Token.noConfusion h⟩

/-- Claim C8 (on the code bug): `ast.rs` declares
`FunctionExpr{name, parameters, body}` — its extra `name` field alone
distinguishes otherwise identical values, and it has no statement list —
while the parser's `Fn` rule (per parser.rs and its tests) produces a
`FunctionExpr` populated with exactly an ordered parameter list and an
ordered statement list. -/
theorem c8_functionexpr_shape :
    ASTFile.FunctionExpr "f" [] (.NumberExpr 0) ≠
      ASTFile.FunctionExpr "g" [] (.NumberExpr 0) ∧
    parseInput "(fn (a b) (a))".toList =
      .ok (some (.FunctionExpr ["a", "b"] [.VariableExpr "a"])) :=
  ⟨fun h => absurd (ASTFile.FunctionExpr.inj h).1 (by decide), rfl⟩

/-- Claim C9, counterexample: tokenization of `"a\nb"` succeeds, but the
newline — whitespace — is covered by the span of the `Unknown('\n')` token,
so concatenating the covered text yields `"a\nb"`, not the whitespace-free
`"ab"`. -/
theorem c9_counterexample :
    allOk (tokenizeInput "a\nb".toList) = true ∧
    spanConcat "a\nb".toList (tokenizeInput "a\nb".toList) = "a\nb".toList ∧
    specStripWsComments "a\nb".toList = "ab".toList ∧
    spanConcat "a\nb".toList (tokenizeInput "a\nb".toList) ≠
      specStripWsComments "a\nb".toList := by
  refine ⟨by decide, by decide, by decide, by decide⟩

/-- Claim C10: the `Def` arm is partial at the public interface — on the
balanced input `"(def x)"` it pops the empty reduced right-hand-side list
(`rhs.pop().unwrap()` on `None`), and on a group whose last token is `Def`
(a bare `def`) it reads index `parsed + 1` out of bounds — so
`next_expression` aborts, returning neither `Ok` nor a `ParseError`. -/
theorem c10_def_arm_unchecked :
    parseInput "(def x)".toList = .panicked "called unwrap on None" ∧
    parseInput "def".toList = .panicked "index out of bounds" ∧
    (∀ a : Option AST, parseInput "(def x)".toList ≠ .ok a) ∧
    (∀ e : ParseError, parseInput "(def x)".toList ≠ .err e) :=
  ⟨rfl, rfl, fun _ h => Outcome.noConfusion h, fun _ h => Outcome.noConfusion h⟩

/-!
## Canonical single-line tokenizer states

While no newline or carriage return has been consumed, the state of
`GreedyTokenizer` over an input is fully determined by how many characters it
has consumed; `lineState cs k` is that state, and the lemmas below execute
each loop of `get_token` symbolically over it.
-/

/-- The tokenizer state over `cs` after consuming `k` characters, none of
them a newline: the lookahead holds character `k` (at line 0, column `k`). -/
def lineState (cs : List Char) (k : Nat) : GreedyTokenizer :=
  { inbuf := cs.drop (k + 1)
    line := 0
    position := min (k + 1) cs.length
    currentChar := ⟨cs[k]?, 0, k⟩ }

theorem new_eq_lineState (cs : List Char)
    (h : ∀ c, cs[0]? = some c → c ≠ '\n' ∧ c ≠ '\r') :
    GreedyTokenizer.new cs = lineState cs 0 := by
  match cs with
  | [] => rfl
  | c :: rest =>
      have hc := h c (by simp)
      simp [GreedyTokenizer.new, stepNextChar, lineState, hc.1, hc.2]

theorem stepNextChar_lineState (cs : List Char) (hnl : noNl cs) (k : Nat)
    (hk : k < cs.length) :
    stepNextChar (lineState cs k) = lineState cs (k + 1) := by
  by_cases h : k + 1 < cs.length
  · have hdrop : cs.drop (k + 1) = cs[k + 1] :: cs.drop (k + 1 + 1) :=
      List.drop_eq_getElem_cons h
    have hc := hnl _ (List.getElem_mem h)
    simp only [lineState]
    rw [hdrop]
    simp [stepNextChar, hc.1, hc.2, List.getElem?_eq_getElem h]
    omega
  · have hdrop : cs.drop (k + 1) = [] := List.drop_eq_nil_of_le (by omega)
    simp only [lineState]
    rw [hdrop]
    simp [stepNextChar, List.getElem?_eq_none (by omega : cs.length ≤ k + 1),
      List.drop_eq_nil_of_le (by omega : cs.length ≤ k + 1 + 1)]
    omega

theorem stepNextChar_lineState_end (cs : List Char) :
    stepNextChar (lineState cs cs.length) = lineState cs cs.length := by
  have hdrop : cs.drop (cs.length + 1) = [] := List.drop_eq_nil_of_le (by omega)
  simp only [lineState]
  rw [hdrop]
  simp [stepNextChar, List.getElem?_eq_none (le_refl cs.length)]

theorem lt_of_getElem?_some {α : Type} {l : List α} {n : Nat} {a : α}
    (h : l[n]? = some a) : n < l.length := by
  by_contra hn
  rw [List.getElem?_eq_none (by omega)] at h
  cases h

theorem mem_of_getElem?_some {α : Type} {l : List α} {n : Nat} {a : α}
    (h : l[n]? = some a) : a ∈ l := by
  have hlt := lt_of_getElem?_some h
  rw [List.getElem?_eq_getElem hlt] at h
  exact Option.some.inj h ▸ List.getElem_mem hlt

theorem lineState_chr (cs : List Char) (k : Nat) :
    (lineState cs k).currentChar.chr = cs[k]? := rfl

theorem skipSpacesF_lineState (cs : List Char) (hnl : noNl cs) :
    ∀ (j k fuel : Nat), k ≤ cs.length →
      (∀ i, i < j → cs[k + i]? = some ' ') →
      cs[k + j]? ≠ some ' ' →
      j + 1 ≤ fuel →
      skipSpacesF fuel (lineState cs k) = lineState cs (k + j) := by
  intro j
  induction j with
  | zero =>
      intro k fuel hk hsp hb hf
      obtain ⟨f, rfl⟩ : ∃ f, fuel = f + 1 := ⟨fuel - 1, by omega⟩
      rw [skipSpacesF,
        if_neg (show ¬(lineState cs k).currentChar.chr = some ' ' by
          simpa [lineState_chr] using hb)]
      rfl
  | succ j ih =>
      intro k fuel hk hsp hb hf
      obtain ⟨f, rfl⟩ : ∃ f, fuel = f + 1 := ⟨fuel - 1, by omega⟩
      have hk0 : cs[k]? = some ' ' := by simpa using hsp 0 (by omega)
      have hklt : k < cs.length := lt_of_getElem?_some hk0
      rw [skipSpacesF, if_pos (by simpa [lineState_chr] using hk0),
        stepNextChar_lineState cs hnl k hklt,
        show k + (j + 1) = (k + 1) + j by omega]
      exact ih (k + 1) f (by omega)
        (fun i hi => by
          have := hsp (i + 1) (by omega)
          rwa [show k + (i + 1) = k + 1 + i by omega] at this)
        (by
          have := hb
          rwa [show k + (j + 1) = k + 1 + j by omega] at this)
        (by omega)

theorem skipSpaces_lineState (cs : List Char) (hnl : noNl cs) (k j : Nat)
    (hk : k ≤ cs.length)
    (hsp : ∀ i, i < j → cs[k + i]? = some ' ')
    (hb : cs[k + j]? ≠ some ' ') :
    skipSpaces (lineState cs k) = lineState cs (k + j) := by
  have hkj : k + j ≤ cs.length := by
    cases j with
    | zero => omega
    | succ j' =>
        have := lt_of_getElem?_some (hsp j' (by omega))
        omega
  unfold skipSpaces
  exact skipSpacesF_lineState cs hnl j k _ hk hsp hb
    (by simp [lineState, List.length_drop]; omega)

theorem skipCommentF_lineState (cs : List Char) (hnl : noNl cs) :
    ∀ (fuel k : Nat), k ≤ cs.length → cs.length - k + 1 ≤ fuel →
      skipCommentF fuel (lineState cs k) = lineState cs cs.length := by
  intro fuel
  induction fuel with
  | zero => intro k hk hf; omega
  | succ f ih =>
      intro k hk hf
      rw [skipCommentF]
      cases hck : cs[k]? with
      | none =>
          have hkeq : k = cs.length := by
            have := hk
            by_contra hne
            rw [List.getElem?_eq_getElem (by omega)] at hck
            cases hck
          rw [lineState_chr, hck]
          rw [hkeq]
      | some c =>
          have hc := hnl c (mem_of_getElem?_some hck)
          have hklt := lt_of_getElem?_some hck
          rw [lineState_chr, hck]
          simp only [hc.1, hc.2, or_self, if_false]
          rw [stepNextChar_lineState cs hnl k hklt]
          exact ih (k + 1) (by omega) (by omega)

theorem skipComment_lineState (cs : List Char) (hnl : noNl cs) (k : Nat)
    (hk : k ≤ cs.length) :
    skipComment (lineState cs k) = lineState cs cs.length := by
  unfold skipComment
  exact skipCommentF_lineState cs hnl _ k hk
    (by simp [lineState, List.length_drop]; omega)

theorem readWhileF_lineState (cs : List Char) (hnl : noNl cs)
    (p : CharAndPosition → Bool) (pc : Char → Bool)
    (hpl : ∀ c l pos, p ⟨some c, l, pos⟩ = pc c)
    (hpn : ∀ l pos, p ⟨none, l, pos⟩ = false) :
    ∀ (j k fuel : Nat), k ≤ cs.length →
      (∀ i, i < j → ∃ c, cs[k + i]? = some c ∧ pc c = true) →
      (∀ c, cs[k + j]? = some c → pc c = false) →
      j + 1 ≤ fuel →
      readWhileF fuel p (lineState cs k) =
        ((cs.drop k).take j, lineState cs (k + j)) := by
  intro j
  induction j with
  | zero =>
      intro k fuel hk hrun hb hf
      obtain ⟨f, rfl⟩ : ∃ f, fuel = f + 1 := ⟨fuel - 1, by omega⟩
      rw [readWhileF, if_neg]
      · simp
      · show ¬ p (lineState cs k).currentChar = true
        cases hck : cs[k]? with
        | none =>
            have : (lineState cs k).currentChar = ⟨none, 0, k⟩ := by
              simp [lineState, hck]
            rw [this, hpn]
            simp
        | some c =>
            have : (lineState cs k).currentChar = ⟨some c, 0, k⟩ := by
              simp [lineState, hck]
            rw [this, hpl, hb c hck]
            simp
  | succ j ih =>
      intro k fuel hk hrun hb hf
      obtain ⟨f, rfl⟩ : ∃ f, fuel = f + 1 := ⟨fuel - 1, by omega⟩
      obtain ⟨c0, hck, hpc0⟩ := hrun 0 (by omega)
      rw [show k + 0 = k by omega] at hck
      have hklt : k < cs.length := lt_of_getElem?_some hck
      have hcur : (lineState cs k).currentChar = ⟨some c0, 0, k⟩ := by
        simp [lineState, hck]
      rw [readWhileF, if_pos (by rw [hcur, hpl]; exact hpc0), hcur]
      simp only
      rw [stepNextChar_lineState cs hnl k hklt]
      rw [ih (k + 1) f (by omega)
        (fun i hi => by
          have := hrun (i + 1) (by omega)
          rwa [show k + (i + 1) = k + 1 + i by omega] at this)
        (fun c hc => by
          apply hb c
          rwa [show k + (j + 1) = k + 1 + j by omega])
        (by omega)]
      have hdropk : cs.drop k = c0 :: cs.drop (k + 1) := by
        have := List.drop_eq_getElem_cons hklt
        rw [List.getElem?_eq_getElem hklt] at hck
        rw [this, Option.some.inj hck]
      rw [hdropk]
      simp [show k + (j + 1) = k + 1 + j by omega]

theorem readWhile_lineState (cs : List Char) (hnl : noNl cs)
    (p : CharAndPosition → Bool) (pc : Char → Bool)
    (hpl : ∀ c l pos, p ⟨some c, l, pos⟩ = pc c)
    (hpn : ∀ l pos, p ⟨none, l, pos⟩ = false)
    (j k : Nat) (hk : k ≤ cs.length)
    (hrun : ∀ i, i < j → ∃ c, cs[k + i]? = some c ∧ pc c = true)
    (hb : ∀ c, cs[k + j]? = some c → pc c = false) :
    readWhile p (lineState cs k) = ((cs.drop k).take j, lineState cs (k + j)) := by
  have hkj : k + j ≤ cs.length := by
    cases j with
    | zero => omega
    | succ j' =>
        obtain ⟨c, hc, _⟩ := hrun j' (by omega)
        have := lt_of_getElem?_some hc
        omega
  unfold readWhile
  exact readWhileF_lineState cs hnl p pc hpl hpn j k _ hk hrun hb
    (by simp [lineState, List.length_drop]; omega)

theorem takeWhile_run {α : Type} (p : α → Bool) (x : List α) :
    ∀ i, i < (x.takeWhile p).length → ∃ c, x[i]? = some c ∧ p c = true := by
  induction x with
  | nil => intro i hi; simp at hi
  | cons a rest ih =>
      intro i hi
      rw [List.takeWhile_cons] at hi
      by_cases hpa : p a = true
      · simp only [hpa, if_true] at hi
        match i with
        | 0 => exact ⟨a, by simp, hpa⟩
        | i + 1 =>
            obtain ⟨c, hc, hpc⟩ := ih i (by simpa using hi)
            exact ⟨c, by simpa using hc, hpc⟩
      · simp [hpa] at hi

theorem takeWhile_boundary {α : Type} (p : α → Bool) (x : List α) :
    ∀ c, x[(x.takeWhile p).length]? = some c → p c = false := by
  induction x with
  | nil => intro c hc; simp at hc
  | cons a rest ih =>
      intro c hc
      rw [List.takeWhile_cons] at hc
      by_cases hpa : p a = true
      · simp only [hpa, if_true, List.length_cons] at hc
        exact ih c (by simpa using hc)
      · simp only [hpa] at hc
        simp at hc
        rw [← hc]
        simpa using hpa

theorem takeWhile_eq_take {α : Type} (p : α → Bool) (x : List α) :
    x.takeWhile p = x.take (x.takeWhile p).length := by
  induction x with
  | nil => simp
  | cons a rest ih =>
      rw [List.takeWhile_cons]
      by_cases hpa : p a = true
      · simp [hpa, List.take_succ_cons, ← ih]
      · simp [hpa]

theorem alphaChar_not_special (c : Char) (h : isAlphabeticChar c = true) :
    c ≠ '(' ∧ c ≠ ')' ∧ c ≠ ' ' ∧ c ≠ '#' := by
  refine ⟨?_, ?_, ?_, ?_⟩ <;> (intro hc; rw [hc] at h; simp [isAlphabeticChar] at h)

theorem alphaChar_identLike (c : Char) (h : isAlphabeticChar c = true) :
    isIdentifierLikeChar c = true := by
  simp [isIdentifierLikeChar, h]

theorem identLikeChar_not_special (c : Char) (h : isIdentifierLikeChar c = true) :
    c ≠ '#' ∧ c ≠ ' ' ∧ c ≠ '\n' ∧ c ≠ '\r' := by
  refine ⟨?_, ?_, ?_, ?_⟩ <;>
    (intro hc; rw [hc] at h;
     simp [isIdentifierLikeChar, isAlphabeticChar, isDigitChar] at h)

theorem numberLikeChar_not_special (c : Char) (h : isNumberLikeChar c = true) :
    c ≠ '#' ∧ c ≠ ' ' ∧ c ≠ '(' ∧ c ≠ ')' ∧ c ≠ '\n' ∧ c ≠ '\r' := by
  refine ⟨?_, ?_, ?_, ?_, ?_, ?_⟩ <;>
    (intro hc; rw [hc] at h; simp [isNumberLikeChar, isDigitChar] at h)

theorem numberLikeChar_not_alpha (c : Char) (h : isNumberLikeChar c = true) :
    isAlphabeticChar c = false := by
  simp only [isNumberLikeChar, Bool.or_eq_true, Bool.and_eq_true, decide_eq_true_eq] at h
  rcases h with hdig | hdot
  · simp only [isDigitChar, Bool.and_eq_true, decide_eq_true_eq] at hdig
    simp only [isAlphabeticChar, Bool.or_eq_false_iff, Bool.and_eq_false_iff]
    constructor
    · left
      simp only [decide_eq_false_iff_not]
      intro hA
      exact absurd (le_trans hA hdig.2) (by decide)
    · left
      simp only [decide_eq_false_iff_not]
      intro ha
      exact absurd (le_trans ha hdig.2) (by decide)
  · rw [show c = '.' by simpa using hdot]
    decide

theorem lineState_chr_line (cs : List Char) (k : Nat) :
    (lineState cs k).currentChar.line = 0 := rfl

theorem lineState_chr_pos (cs : List Char) (k : Nat) :
    (lineState cs k).currentChar.position = k := rfl

theorem getToken_eof (cs : List Char) (hnl : noNl cs) (k j : Nat)
    (hk : k ≤ cs.length)
    (hsp : ∀ i, i < j → cs[k + i]? = some ' ')
    (hb : cs[k + j]? ≠ some ' ')
    (hcb : cs[k + j]? = none ∨ cs[k + j]? = some '#') :
    getToken (lineState cs k) =
      (.ok ⟨.Eof, ⟨0, cs.length⟩, ⟨0, cs.length⟩⟩, lineState cs cs.length) := by
  have hkj : k + j ≤ cs.length := by
    cases j with
    | zero => omega
    | succ j' =>
        have := lt_of_getElem?_some (hsp j' (by omega))
        omega
  have hs1 : skipSpaces (lineState cs k) = lineState cs (k + j) :=
    skipSpaces_lineState cs hnl k j hk hsp hb
  have hs2 : (if (lineState cs (k + j)).currentChar.chr = some '#' then
      skipComment (lineState cs (k + j)) else lineState cs (k + j)) =
      lineState cs cs.length := by
    rcases hcb with hnone | hhash
    · rw [lineState_chr, hnone, if_neg (by simp)]
      have : cs.length ≤ k + j := by
        by_contra h
        rw [List.getElem?_eq_getElem (by omega)] at hnone
        cases hnone
      congr 1
      omega
    · rw [lineState_chr, hhash, if_pos rfl]
      exact skipComment_lineState cs hnl (k + j) hkj
  have hnone : cs[cs.length]? = none := List.getElem?_eq_none (le_refl _)
  simp only [getToken, hs1, hs2]
  simp [lineState_chr, lineState_chr_line, lineState_chr_pos, hnone,
    isAlphabetic, isNumberLike, stepNextChar_lineState_end]

theorem getToken_open (cs : List Char) (hnl : noNl cs) (k j : Nat)
    (hk : k ≤ cs.length)
    (hsp : ∀ i, i < j → cs[k + i]? = some ' ')
    (hb : cs[k + j]? ≠ some ' ')
    (hc : cs[k + j]? = some '(') :
    getToken (lineState cs k) =
      (.ok ⟨.OpenParen, ⟨0, k + j⟩, ⟨0, k + j⟩⟩, lineState cs (k + j + 1)) := by
  have hlt : k + j < cs.length := lt_of_getElem?_some hc
  have hs1 : skipSpaces (lineState cs k) = lineState cs (k + j) :=
    skipSpaces_lineState cs hnl k j hk hsp hb
  simp [getToken, hs1, lineState_chr, hc, lineState_chr_line, lineState_chr_pos,
    stepNextChar_lineState cs hnl (k + j) hlt]

theorem getToken_close (cs : List Char) (hnl : noNl cs) (k j : Nat)
    (hk : k ≤ cs.length)
    (hsp : ∀ i, i < j → cs[k + i]? = some ' ')
    (hb : cs[k + j]? ≠ some ' ')
    (hc : cs[k + j]? = some ')') :
    getToken (lineState cs k) =
      (.ok ⟨.CloseParen, ⟨0, k + j⟩, ⟨0, k + j⟩⟩, lineState cs (k + j + 1)) := by
  have hlt : k + j < cs.length := lt_of_getElem?_some hc
  have hs1 : skipSpaces (lineState cs k) = lineState cs (k + j) :=
    skipSpaces_lineState cs hnl k j hk hsp hb
  simp [getToken, hs1, lineState_chr, hc, lineState_chr_line, lineState_chr_pos,
    stepNextChar_lineState cs hnl (k + j) hlt]

theorem getToken_single (cs : List Char) (hnl : noNl cs) (k j : Nat) (c : Char)
    (hk : k ≤ cs.length)
    (hsp : ∀ i, i < j → cs[k + i]? = some ' ')
    (hb : cs[k + j]? ≠ some ' ')
    (hc : cs[k + j]? = some c)
    (hhash : c ≠ '#') (hop : c ≠ '(') (hcp : c ≠ ')')
    (halpha : isAlphabeticChar c = false)
    (hnum : isNumberLikeChar c = false) :
    getToken (lineState cs k) =
      (.ok ⟨(tokenFromChar c).getD (.Unknown c), ⟨0, k + j⟩, ⟨0, k + j⟩⟩,
        lineState cs (k + j + 1)) := by
  have hlt : k + j < cs.length := lt_of_getElem?_some hc
  have hs1 : skipSpaces (lineState cs k) = lineState cs (k + j) :=
    skipSpaces_lineState cs hnl k j hk hsp hb
  cases htc : tokenFromChar c with
  | none =>
      simp [getToken, hs1, lineState_chr, hc, lineState_chr_line,
        lineState_chr_pos, isAlphabetic, isNumberLike, hhash, hop, hcp, halpha,
        hnum, htc, stepNextChar_lineState cs hnl (k + j) hlt]
  | some t =>
      simp [getToken, hs1, lineState_chr, hc, lineState_chr_line,
        lineState_chr_pos, isAlphabetic, isNumberLike, hhash, hop, hcp, halpha,
        hnum, htc, stepNextChar_lineState cs hnl (k + j) hlt]

theorem getToken_ident (cs : List Char) (hnl : noNl cs) (k j : Nat) (c : Char)
    (hk : k ≤ cs.length)
    (hsp : ∀ i, i < j → cs[k + i]? = some ' ')
    (hb : cs[k + j]? ≠ some ' ')
    (hc : cs[k + j]? = some c)
    (hca : isAlphabeticChar c = true) :
    getToken (lineState cs k) =
      (.ok ⟨(tokenFromStr (String.mk ((cs.drop (k + j)).takeWhile isIdentifierLikeChar))).getD
          (.Identifier (String.mk ((cs.drop (k + j)).takeWhile isIdentifierLikeChar))),
        ⟨0, k + j⟩,
        ⟨0, k + j + ((cs.drop (k + j)).takeWhile isIdentifierLikeChar).length - 1⟩⟩,
        lineState cs (k + j + ((cs.drop (k + j)).takeWhile isIdentifierLikeChar).length)) := by
  have hspecial := alphaChar_not_special c hca
  have hs1 : skipSpaces (lineState cs k) = lineState cs (k + j) :=
    skipSpaces_lineState cs hnl k j hk hsp hb
  set j2 := ((cs.drop (k + j)).takeWhile isIdentifierLikeChar).length with hj2
  have hread : readWhile isIdentifierLike (lineState cs (k + j)) =
      ((cs.drop (k + j)).take j2, lineState cs (k + j + j2)) := by
    apply readWhile_lineState cs hnl isIdentifierLike isIdentifierLikeChar
      (fun _ _ _ => rfl) (fun _ _ => rfl) j2 (k + j)
      (le_of_lt (lt_of_getElem?_some hc))
    · intro i hi
      obtain ⟨c', hc', hp'⟩ := takeWhile_run isIdentifierLikeChar (cs.drop (k + j)) i hi
      rw [List.getElem?_drop] at hc'
      exact ⟨c', hc', hp'⟩
    · intro c' hc'
      apply takeWhile_boundary isIdentifierLikeChar (cs.drop (k + j))
      rw [List.getElem?_drop]
      exact hc'
  have htake : (cs.drop (k + j)).take j2 =
      (cs.drop (k + j)).takeWhile isIdentifierLikeChar :=
    (takeWhile_eq_take isIdentifierLikeChar (cs.drop (k + j))).symm
  cases hts : tokenFromStr (String.mk ((cs.drop (k + j)).takeWhile isIdentifierLikeChar)) with
  | none =>
      simp [getToken, hs1, lineState_chr, hc, lineState_chr_line,
        lineState_chr_pos, isAlphabetic, hca, hspecial.1, hspecial.2.1,
        hspecial.2.2.2, hread, htake, hts]
  | some t =>
      simp [getToken, hs1, lineState_chr, hc, lineState_chr_line,
        lineState_chr_pos, isAlphabetic, hca, hspecial.1, hspecial.2.1,
        hspecial.2.2.2, hread, htake, hts]

theorem getToken_number (cs : List Char) (hnl : noNl cs) (k j : Nat) (c : Char)
    (hk : k ≤ cs.length)
    (hsp : ∀ i, i < j → cs[k + i]? = some ' ')
    (hb : cs[k + j]? ≠ some ' ')
    (hc : cs[k + j]? = some c)
    (hcn : isNumberLikeChar c = true) :
    getToken (lineState cs k) =
      ((match floatOfNumChars ((cs.drop (k + j)).takeWhile isNumberLikeChar) with
        | some v => .ok ⟨.Number v, ⟨0, k + j⟩,
            ⟨0, k + j + ((cs.drop (k + j)).takeWhile isNumberLikeChar).length - 1⟩⟩
        | none => .error (.ReadError
            (numberErrorMessage (String.mk ((cs.drop (k + j)).takeWhile isNumberLikeChar)))
            ⟨0, k + j⟩
            ⟨0, k + j + ((cs.drop (k + j)).takeWhile isNumberLikeChar).length - 1⟩)),
        lineState cs (k + j + ((cs.drop (k + j)).takeWhile isNumberLikeChar).length)) := by
  have hspecial := numberLikeChar_not_special c hcn
  have halpha := numberLikeChar_not_alpha c hcn
  have hs1 : skipSpaces (lineState cs k) = lineState cs (k + j) :=
    skipSpaces_lineState cs hnl k j hk hsp hb
  set j2 := ((cs.drop (k + j)).takeWhile isNumberLikeChar).length with hj2
  have hread : readWhile isNumberLike (lineState cs (k + j)) =
      ((cs.drop (k + j)).take j2, lineState cs (k + j + j2)) := by
    apply readWhile_lineState cs hnl isNumberLike isNumberLikeChar
      (fun _ _ _ => rfl) (fun _ _ => rfl) j2 (k + j)
      (le_of_lt (lt_of_getElem?_some hc))
    · intro i hi
      obtain ⟨c', hc', hp'⟩ := takeWhile_run isNumberLikeChar (cs.drop (k + j)) i hi
      rw [List.getElem?_drop] at hc'
      exact ⟨c', hc', hp'⟩
    · intro c' hc'
      apply takeWhile_boundary isNumberLikeChar (cs.drop (k + j))
      rw [List.getElem?_drop]
      exact hc'
  have htake : (cs.drop (k + j)).take j2 =
      (cs.drop (k + j)).takeWhile isNumberLikeChar :=
    (takeWhile_eq_take isNumberLikeChar (cs.drop (k + j))).symm
  cases hfv : floatOfNumChars ((cs.drop (k + j)).takeWhile isNumberLikeChar) with
  | none =>
      simp [getToken, hs1, lineState_chr, hc, lineState_chr_line,
        lineState_chr_pos, isAlphabetic, isNumberLike, hcn, halpha,
        hspecial.1, hspecial.2.2.1, hspecial.2.2.2.1, hread, htake, hfv]
  | some v =>
      simp [getToken, hs1, lineState_chr, hc, lineState_chr_line,
        lineState_chr_pos, isAlphabetic, isNumberLike, hcn, halpha,
        hspecial.1, hspecial.2.2.1, hspecial.2.2.2.1, hread, htake, hfv]

theorem stepNextChar_lineState_of (cs : List Char) (k : Nat)
    (hk : k < cs.length)
    (hnl1 : ∀ c, cs[k + 1]? = some c → c ≠ '\n' ∧ c ≠ '\r') :
    stepNextChar (lineState cs k) = lineState cs (k + 1) := by
  by_cases h : k + 1 < cs.length
  · have hdrop : cs.drop (k + 1) = cs[k + 1] :: cs.drop (k + 1 + 1) :=
      List.drop_eq_getElem_cons h
    have hc := hnl1 _ (List.getElem?_eq_getElem h)
    simp only [lineState]
    rw [hdrop]
    simp [stepNextChar, hc.1, hc.2, List.getElem?_eq_getElem h]
    omega
  · have hdrop : cs.drop (k + 1) = [] := List.drop_eq_nil_of_le (by omega)
    simp only [lineState]
    rw [hdrop]
    simp [stepNextChar, List.getElem?_eq_none (by omega : cs.length ≤ k + 1),
      List.drop_eq_nil_of_le (by omega : cs.length ≤ k + 1 + 1)]
    omega

theorem readWhileF_weak (cs : List Char) (p : CharAndPosition → Bool)
    (pc : Char → Bool)
    (hpl : ∀ c l pos, p ⟨some c, l, pos⟩ = pc c)
    (hpn : ∀ l pos, p ⟨none, l, pos⟩ = false)
    (hcn : ∀ c, pc c = true → c ≠ '\n' ∧ c ≠ '\r') :
    ∀ (j k fuel : Nat), k ≤ cs.length →
      (∀ i, i < j → ∃ c, cs[k + i]? = some c ∧ pc c = true) →
      (∀ c, cs[k + j]? = some c → pc c = false) →
      j + 1 ≤ fuel →
      (readWhileF fuel p (lineState cs k)).1 = (cs.drop k).take j ∧
      (readWhileF fuel p (lineState cs k)).2.currentChar = ⟨cs[k + j]?, 0, k + j⟩ := by
  intro j
  induction j with
  | zero =>
      intro k fuel hk hrun hb hf
      obtain ⟨f, rfl⟩ : ∃ f, fuel = f + 1 := ⟨fuel - 1, by omega⟩
      have hno : ¬ p (lineState cs k).currentChar = true := by
        cases hck : cs[k]? with
        | none =>
            have : (lineState cs k).currentChar = ⟨none, 0, k⟩ := by
              simp [lineState, hck]
            rw [this, hpn]; simp
        | some c =>
            have : (lineState cs k).currentChar = ⟨some c, 0, k⟩ := by
              simp [lineState, hck]
            rw [this, hpl, hb c (by simpa using hck)]; simp
      rw [readWhileF, if_neg hno]
      refine ⟨by simp, ?_⟩
      simp only [Nat.add_zero]
      rfl
  | succ j ih =>
      intro k fuel hk hrun hb hf
      obtain ⟨f, rfl⟩ : ∃ f, fuel = f + 1 := ⟨fuel - 1, by omega⟩
      obtain ⟨c0, hck, hpc0⟩ := hrun 0 (by omega)
      rw [show k + 0 = k by omega] at hck
      have hklt : k < cs.length := lt_of_getElem?_some hck
      have hcur : (lineState cs k).currentChar = ⟨some c0, 0, k⟩ := by
        simp [lineState, hck]
      have hdropk : cs.drop k = c0 :: cs.drop (k + 1) := by
        have := List.drop_eq_getElem_cons hklt
        rw [List.getElem?_eq_getElem hklt] at hck
        rw [this, Option.some.inj hck]
      rw [readWhileF, if_pos (by rw [hcur, hpl]; exact hpc0), hcur]
      simp only
      by_cases hnl1 : ∀ c, cs[k + 1]? = some c → c ≠ '\n' ∧ c ≠ '\r'
      · rw [stepNextChar_lineState_of cs k hklt hnl1]
        obtain ⟨ih1, ih2⟩ := ih (k + 1) f (by omega)
          (fun i hi => by
            have := hrun (i + 1) (by omega)
            rwa [show k + (i + 1) = k + 1 + i by omega] at this)
          (fun c hc => by
            apply hb c
            rwa [show k + (j + 1) = k + 1 + j by omega])
          (by omega)
        refine ⟨?_, ?_⟩
        · rw [hdropk]
          simp only [List.take_succ_cons, ih1]
        · rw [ih2]
          simp [show k + 1 + j = k + (j + 1) by omega]
      · push_neg at hnl1
        obtain ⟨c1, hc1, hc1nl⟩ := hnl1
        have hc1nl' : c1 = '\n' ∨ c1 = '\r' := by
          by_cases h1 : c1 = '\n'
          · left; exact h1
          · right; exact hc1nl h1
        have hjz : j = 0 := by
          by_contra hj
          obtain ⟨c', hc', hp'⟩ := hrun 1 (by omega)
          rw [show k + 1 = k + 1 by rfl] at hc'
          rw [hc'] at hc1
          have := hcn c' hp'
          rcases hc1nl' with h | h <;>
            (rw [Option.some.inj hc1] at this; simp [h] at this)
        subst hjz
        have hk1 : k + 1 < cs.length := lt_of_getElem?_some hc1
        have hdrop1 : cs.drop (k + 1) = c1 :: cs.drop (k + 1 + 1) := by
          have := List.drop_eq_getElem_cons hk1
          rw [List.getElem?_eq_getElem hk1] at hc1
          rw [this, Option.some.inj hc1]
        have hstep : stepNextChar (lineState cs k) =
            { inbuf := cs.drop (k + 1 + 1)
              line := 1
              position := 0
              currentChar := ⟨some c1, 0, k + 1⟩ } := by
          simp only [lineState]
          rw [hdrop1]
          rcases hc1nl' with h | h <;> (subst h; simp [stepNextChar]; omega)
        rw [hstep]
        have hpcc1 : pc c1 = false := by
          by_contra hp
          have := hcn c1 (by simpa using hp)
          rcases hc1nl' with h | h <;> simp [h] at this
        obtain ⟨f2, rfl⟩ : ∃ f2, f = f2 + 1 := ⟨f - 1, by omega⟩
        rw [readWhileF, if_neg (by rw [hpl]; simp [hpcc1])]
        refine ⟨?_, ?_⟩
        · rw [hdropk]; simp
        · simp [hc1]

theorem readWhile_weak (cs : List Char) (p : CharAndPosition → Bool)
    (pc : Char → Bool)
    (hpl : ∀ c l pos, p ⟨some c, l, pos⟩ = pc c)
    (hpn : ∀ l pos, p ⟨none, l, pos⟩ = false)
    (hcn : ∀ c, pc c = true → c ≠ '\n' ∧ c ≠ '\r')
    (j k : Nat) (hk : k ≤ cs.length)
    (hrun : ∀ i, i < j → ∃ c, cs[k + i]? = some c ∧ pc c = true)
    (hb : ∀ c, cs[k + j]? = some c → pc c = false) :
    (readWhile p (lineState cs k)).1 = (cs.drop k).take j ∧
    (readWhile p (lineState cs k)).2.currentChar = ⟨cs[k + j]?, 0, k + j⟩ := by
  have hkj : k + j ≤ cs.length := by
    cases j with
    | zero => omega
    | succ j' =>
        obtain ⟨c, hc, _⟩ := hrun j' (by omega)
        have := lt_of_getElem?_some hc
        omega
  unfold readWhile
  exact readWhileF_weak cs p pc hpl hpn hcn j k _ hk hrun hb
    (by simp [lineState, List.length_drop]; omega)

theorem tokenizeAllF_eof (s : GreedyTokenizer) (fuel : Nat) (f t : Position)
    (s' : GreedyTokenizer) (h : getToken s = (.ok ⟨.Eof, f, t⟩, s')) :
    tokenizeAllF (fuel + 1) s = [] := by
  simp [tokenizeAllF, h]

theorem tokenizeAllF_tok (s : GreedyTokenizer) (fuel : Nat) (ts : TokenAndSpan)
    (s' : GreedyTokenizer) (h : getToken s = (.ok ts, s'))
    (hne : ts.token ≠ .Eof) :
    tokenizeAllF (fuel + 1) s = .ok ts :: tokenizeAllF fuel s' := by
  simp [tokenizeAllF, h, hne]

theorem tokenizeAllF_err (s : GreedyTokenizer) (fuel : Nat) (e : TokenizerError)
    (s' : GreedyTokenizer) (h : getToken s = (.error e, s')) :
    tokenizeAllF (fuel + 1) s = .error e :: tokenizeAllF fuel s' := by
  simp [tokenizeAllF, h]

theorem tokenizeInput_eq (cs : List Char)
    (h0 : ∀ c, cs[0]? = some c → c ≠ '\n' ∧ c ≠ '\r') :
    tokenizeInput cs = tokenizeAllF ((cs.drop 1).length + 3) (lineState cs 0) := by
  unfold tokenizeInput tokenizeAll
  rw [new_eq_lineState cs h0]
  rfl

/-- Claim C3 as amended: the only whitespace the tokenizer skips is the space
character, and a comment is skipped only once (running to a newline, carriage
return, or end of stream, without looping back).  Hence for every input made
of spaces optionally followed by a single `#`-comment that runs to the end of
the stream (no newline or carriage return anywhere), the tokenizer produces
no tokens before the end-of-input marker and `next_expression` returns
`Ok(None)`; inputs with newlines — even whitespace-only ones — instead
produce `Unknown` tokens (see the counterexample). -/
theorem c3_amended :
    ∀ (n : Nat) (cmt : List Char), noNl cmt →
      (cmt ≠ [] → cmt.head? = some '#') →
      tokenizeInput (List.replicate n ' ' ++ cmt) = [] ∧
      parseInput (List.replicate n ' ' ++ cmt) = .ok none := by
  intro n cmt hnlc hhead
  have hnl : noNl (List.replicate n ' ' ++ cmt) := by
    intro c hcmem
    rcases List.mem_append.mp hcmem with h | h
    · rw [List.eq_of_mem_replicate h]
      exact ⟨by decide, by decide⟩
    · exact hnlc c h
  have h0 : ∀ c, (List.replicate n ' ' ++ cmt)[0]? = some c →
      c ≠ '\n' ∧ c ≠ '\r' :=
    fun c hc => hnl c (mem_of_getElem?_some hc)
  have hsp : ∀ i, i < n → (List.replicate n ' ' ++ cmt)[0 + i]? = some ' ' := by
    intro i hi
    rw [show 0 + i = i by omega,
      List.getElem?_append_left (by simpa using hi), List.getElem?_replicate,
      if_pos hi]
  have hbnd : (List.replicate n ' ' ++ cmt)[0 + n]? = cmt[0]? := by
    rw [show 0 + n = n by omega,
      List.getElem?_append_right (by simp)]
    simp
  have hcb : (List.replicate n ' ' ++ cmt)[0 + n]? = none ∨
      (List.replicate n ' ' ++ cmt)[0 + n]? = some '#' := by
    rw [hbnd]
    cases hcmt : cmt with
    | nil => left; simp
    | cons a r =>
        right
        have := hhead (by rw [hcmt]; simp)
        rw [List.head?_eq_getElem?, hcmt] at this
        exact this
  have hb : (List.replicate n ' ' ++ cmt)[0 + n]? ≠ some ' ' := by
    rcases hcb with h | h <;> (rw [h]; simp)
  have heof : getToken (lineState (List.replicate n ' ' ++ cmt) 0) =
      (.ok ⟨.Eof, ⟨0, (List.replicate n ' ' ++ cmt).length⟩,
        ⟨0, (List.replicate n ' ' ++ cmt).length⟩⟩,
        lineState (List.replicate n ' ' ++ cmt)
          (List.replicate n ' ' ++ cmt).length) :=
    getToken_eof _ hnl 0 n (by omega) hsp hb hcb
  have htok : tokenizeInput (List.replicate n ' ' ++ cmt) = [] := by
    rw [tokenizeInput_eq _ h0]
    exact tokenizeAllF_eof _ _ _ _ _ heof
  exact ⟨htok, by unfold parseInput; rw [htok]; rfl⟩

/-- Witness for `c3_amended` at a concrete input: two spaces followed by a
comment that runs to end of stream. -/
theorem c3_amended_witness :
    tokenizeInput "  # only comments".toList = [] ∧
    parseInput "  # only comments".toList = .ok none := by
  have h := c3_amended 2 "# only comments".toList (by decide) (fun _ => rfl)
  simpa using h

theorem skipSpaces_nospace (s : GreedyTokenizer)
    (h : s.currentChar.chr ≠ some ' ') : skipSpaces s = s := by
  unfold skipSpaces
  rw [show s.inbuf.length + 2 = (s.inbuf.length + 1) + 1 from rfl, skipSpacesF,
    if_neg h]

/-- Claim C6: for every input whose leading maximal run of digit-or-dot
characters fails to parse as a 64-bit float, `get_token` returns a
`ReadError` whose message contains the full consumed text and the underlying
parse failure, spanning exactly the consumed characters: from (0,0) to
(0, run length - 1). -/
theorem c6_bad_number_readerror :
    ∀ (run rest : List Char),
      run ≠ [] →
      (∀ c ∈ run, isNumberLikeChar c = true) →
      (∀ c, rest[0]? = some c → isNumberLikeChar c = false) →
      floatOfNumChars run = none →
      (getToken (GreedyTokenizer.new (run ++ rest))).1 =
        .error (.ReadError (numberErrorMessage (String.mk run)) ⟨0, 0⟩
          ⟨0, run.length - 1⟩) := by
  intro run rest hne hall hbnd hfail
  obtain ⟨c0, hc0n⟩ : ∃ c, run[0]? = some c := by
    cases run with
    | nil => exact absurd rfl hne
    | cons a r => exact ⟨a, by simp⟩
  have hc0 : (run ++ rest)[0]? = some c0 := by
    rw [List.getElem?_append_left (lt_of_getElem?_some hc0n)]
    exact hc0n
  have hc0num : isNumberLikeChar c0 = true :=
    hall c0 (mem_of_getElem?_some hc0n)
  have hspecial := numberLikeChar_not_special c0 hc0num
  have halpha := numberLikeChar_not_alpha c0 hc0num
  rw [new_eq_lineState (run ++ rest)
    (fun c hc => by
      rw [hc0] at hc
      rw [← Option.some.inj hc]
      exact ⟨hspecial.2.2.2.2.1, hspecial.2.2.2.2.2⟩)]
  have hs1 : skipSpaces (lineState (run ++ rest) 0) = lineState (run ++ rest) 0 :=
    skipSpaces_nospace _ (by rw [lineState_chr, hc0]; simp [hspecial.2.1])
  have hread := readWhile_weak (run ++ rest) isNumberLike isNumberLikeChar
    (fun _ _ _ => rfl) (fun _ _ => rfl)
    (fun c h => ⟨(numberLikeChar_not_special c h).2.2.2.2.1,
      (numberLikeChar_not_special c h).2.2.2.2.2⟩)
    run.length 0 (by omega)
    (by
      intro i hi
      refine ⟨run[i], ?_, hall run[i] (List.getElem_mem hi)⟩
      rw [show 0 + i = i by omega,
        List.getElem?_append_left (by omega : i < run.length)]
      exact List.getElem?_eq_getElem hi)
    (by
      intro c hc
      apply hbnd c
      rwa [show 0 + run.length = run.length by omega,
        List.getElem?_append_right (le_refl _), Nat.sub_self] at hc)
  obtain ⟨hr1, hr2⟩ := hread
  have hr1' : (readWhile isNumberLike (lineState (run ++ rest) 0)).1 = run := by
    rw [hr1, List.drop_zero, List.take_left]
  simp [getToken, hs1, lineState_chr, hc0, lineState_chr_line,
    lineState_chr_pos, isAlphabetic, isNumberLike, hc0num, halpha,
    hspecial.1, hspecial.2.2.1, hspecial.2.2.2.1, hr1', hr2, hfail]

/-- Witness for `c6_bad_number_readerror` at the claim's own input
`"120.0.1"`: the span runs from (0,0) to (0,6). -/
theorem c6_bad_number_witness :
    (getToken (GreedyTokenizer.new "120.0.1".toList)).1 =
      .error (.ReadError (numberErrorMessage "120.0.1") ⟨0, 0⟩ ⟨0, 6⟩) := by
  have h := c6_bad_number_readerror "120.0.1".toList [] (by decide) (by decide)
    (fun c hc => by simp at hc) (by decide)
  simpa using h

theorem takeWhile_all {α : Type} (p : α → Bool) (x : List α)
    (h : ∀ c ∈ x, p c = true) : x.takeWhile p = x := by
  induction x with
  | nil => rfl
  | cons a rest ih =>
      rw [List.takeWhile_cons, if_pos (h a (by simp))]
      rw [ih (fun c hc => h c (by simp [hc]))]

theorem tokenFromStr_ne_eof (s : String) (t : Token)
    (h : tokenFromStr s = some t) : t ≠ .Eof := by
  unfold tokenFromStr at h
  split_ifs at h <;> (cases h; decide)

theorem tokenFromStr_keyword (s : String) (t : Token)
    (h : tokenFromStr s = some t) : isReservedKeyword t = true := by
  unfold tokenFromStr at h
  split_ifs at h <;> (cases h; rfl)

theorem tokenFromStr_none_iff (s : String) :
    tokenFromStr s = none ↔
      s ∉ (["ns", "def", "defn", "fn", "quote", "if"] : List String) := by
  unfold tokenFromStr
  split_ifs with h1 h2 h3 h4 h5 h6
  · subst h1; decide
  · subst h2; decide
  · subst h3; decide
  · subst h4; decide
  · subst h5; decide
  · subst h6; decide
  · simp [h1, h2, h3, h4, h5, h6]

/-- Claim C7 as amended: for every string that starts with an alphabetic
character and consists of alphanumeric-or-underscore characters, the
tokenizer emits a reserved keyword token exactly when the string is one of
`ns`, `def`, `defn`, `fn`, `quote`, `if` (the table includes `defn`, which
the claim omitted); every other such string is emitted as
`Identifier(string)`. -/
theorem c7_amended :
    ∀ cs : List Char, cs ≠ [] →
      (∀ c, cs[0]? = some c → isAlphabeticChar c = true) →
      (∀ c ∈ cs, isIdentifierLikeChar c = true) →
      ∃ t, tokenizeInput cs = [.ok ⟨t, ⟨0, 0⟩, ⟨0, cs.length - 1⟩⟩] ∧
        (isReservedKeyword t = true ↔
          String.mk cs ∈ (["ns", "def", "defn", "fn", "quote", "if"] : List String)) ∧
        (String.mk cs ∉ (["ns", "def", "defn", "fn", "quote", "if"] : List String) →
          t = .Identifier (String.mk cs)) := by
  intro cs hne hhead hall
  have hnl : noNl cs := fun c hc =>
    ⟨(identLikeChar_not_special c (hall c hc)).2.2.1,
     (identLikeChar_not_special c (hall c hc)).2.2.2⟩
  obtain ⟨c0, hc0⟩ : ∃ c, cs[0]? = some c := by
    cases cs with
    | nil => exact absurd rfl hne
    | cons a r => exact ⟨a, by simp⟩
  have hca := hhead c0 hc0
  have hlen : 0 < cs.length := lt_of_getElem?_some hc0
  have htw : cs.takeWhile isIdentifierLikeChar = cs := takeWhile_all _ _ hall
  have hGT := getToken_ident cs hnl 0 0 c0 (by omega)
    (fun i hi => absurd hi (by omega))
    (by
      rw [show (0 : Nat) + 0 = 0 by omega, hc0]
      simp [(alphaChar_not_special c0 hca).2.2.1])
    (by rw [show (0 : Nat) + 0 = 0 by omega]; exact hc0) hca
  rw [show (0 : Nat) + 0 = 0 by omega, List.drop_zero, htw] at hGT
  have heof : getToken (lineState cs cs.length) =
      (.ok ⟨.Eof, ⟨0, cs.length⟩, ⟨0, cs.length⟩⟩, lineState cs cs.length) := by
    apply getToken_eof cs hnl cs.length 0 (le_refl _)
      (fun i hi => absurd hi (by omega))
    · rw [show cs.length + 0 = cs.length by omega,
        List.getElem?_eq_none (le_refl _)]
      simp
    · left
      rw [show cs.length + 0 = cs.length by omega]
      exact List.getElem?_eq_none (le_refl _)
  have hfuel : (cs.drop 1).length + 3 = (((cs.drop 1).length + 1) + 1) + 1 := by
    omega
  have htok : tokenizeInput cs =
      [.ok ⟨(tokenFromStr (String.mk cs)).getD (.Identifier (String.mk cs)),
        ⟨0, 0⟩, ⟨0, cs.length - 1⟩⟩] := by
    rw [tokenizeInput_eq cs (fun c hc => hnl c (mem_of_getElem?_some hc)),
      hfuel]
    rw [tokenizeAllF_tok _ _ _ _ hGT
      (by
        cases hts : tokenFromStr (String.mk cs) with
        | none => simp [hts]
        | some t' => simpa [hts] using tokenFromStr_ne_eof _ t' hts)]
    rw [show (0 : Nat) + cs.length = cs.length by omega]
    rw [tokenizeAllF_eof _ _ _ _ _ heof]
  cases hts : tokenFromStr (String.mk cs) with
  | none =>
      refine ⟨.Identifier (String.mk cs), by simpa [hts] using htok, ?_, fun _ => rfl⟩
      constructor
      · intro h
        cases h
      · intro hmem
        exact absurd ((tokenFromStr_none_iff (String.mk cs)).mp hts) (by simp [hmem])
  | some t' =>
      refine ⟨t', by simpa [hts] using htok, ?_, ?_⟩
      · constructor
        · intro _
          by_contra hmem
          rw [← tokenFromStr_none_iff (String.mk cs)] at hmem
          rw [hts] at hmem
          cases hmem
        · intro _
          exact tokenFromStr_keyword _ t' hts
      · intro hmem
        rw [← tokenFromStr_none_iff (String.mk cs)] at hmem
        rw [hts] at hmem
        cases hmem

/-- Witness for `c7_amended` at the non-keyword identifier `"foo"` and at
the keyword `"fn"`. -/
theorem c7_amended_witness :
    (∃ t, tokenizeInput "foo".toList = [.ok ⟨t, ⟨0, 0⟩, ⟨0, 2⟩⟩] ∧
      (isReservedKeyword t = true ↔
        String.mk "foo".toList ∈ (["ns", "def", "defn", "fn", "quote", "if"] : List String)) ∧
      (String.mk "foo".toList ∉ (["ns", "def", "defn", "fn", "quote", "if"] : List String) →
        t = .Identifier (String.mk "foo".toList))) ∧
    (∃ t, tokenizeInput "fn".toList = [.ok ⟨t, ⟨0, 0⟩, ⟨0, 1⟩⟩] ∧
      (isReservedKeyword t = true ↔
        String.mk "fn".toList ∈ (["ns", "def", "defn", "fn", "quote", "if"] : List String)) ∧
      (String.mk "fn".toList ∉ (["ns", "def", "defn", "fn", "quote", "if"] : List String) →
        t = .Identifier (String.mk "fn".toList))) :=
  ⟨c7_amended "foo".toList (by decide) (fun c hc => by
      simp at hc; rw [← hc]; decide) (by decide),
   c7_amended "fn".toList (by decide) (fun c hc => by
      simp at hc; rw [← hc]; decide) (by decide)⟩

/-!
## Round-trip support (claim C9)
-/

theorem annotate_filter_line (cs : List Char) (hnl : noNl cs) (a b : Nat) :
    ∀ pos, ((annotatePositions cs 0 pos).filterMap fun cp =>
        if posLE ⟨0, a⟩ cp.2 && posLE cp.2 ⟨0, b⟩ then some cp.1 else none) =
      (cs.take (b + 1 - pos)).drop (a - pos) := by
  induction cs with
  | nil => intro pos; simp [annotatePositions]
  | cons c rest ih =>
      intro pos
      have hc := hnl c (by simp)
      have ihr := ih (fun c' hc' => hnl c' (by simp [hc'])) (pos + 1)
      rw [annotatePositions, if_neg (by simp [hc.1, hc.2])]
      rw [List.filterMap_cons]
      have hsel : (if posLE ⟨0, a⟩ (⟨0, pos⟩ : Position) &&
          posLE (⟨0, pos⟩ : Position) ⟨0, b⟩ then some c else none) =
          if a ≤ pos ∧ pos ≤ b then some c else none := by
        simp [posLE]
      rw [hsel]
      by_cases hpb : pos ≤ b
      · rw [show b + 1 - pos = (b - pos) + 1 by omega, List.take_succ_cons]
        by_cases hap : a ≤ pos
        · rw [if_pos ⟨hap, hpb⟩, show a - pos = 0 by omega, List.drop_zero]
          rw [ihr, show b + 1 - (pos + 1) = b - pos by omega,
            show a - (pos + 1) = 0 by omega, List.drop_zero]
        · rw [if_neg (by omega), show a - pos = (a - (pos + 1)) + 1 by omega,
            List.drop_succ_cons]
          rw [ihr, show b + 1 - (pos + 1) = b - pos by omega]
      · rw [if_neg (by omega), show b + 1 - pos = 0 by omega, List.take_zero,
          List.drop_nil]
        rw [ihr, show b + 1 - (pos + 1) = 0 by omega, List.take_zero,
          List.drop_nil]

theorem spanText_line (cs : List Char) (hnl : noNl cs) (a b : Nat) :
    spanText cs ⟨0, a⟩ ⟨0, b⟩ = (cs.take (b + 1)).drop a := by
  have := annotate_filter_line cs hnl a b 0
  simpa [spanText] using this

/-- On a newline-free input, the text the tokenizer keeps: everything before
the first `#`, with spaces removed. -/
def stripLine (x : List Char) : List Char :=
  (x.takeWhile fun c => c != '#').filter fun c => c != ' '

theorem stripLine_nil : stripLine [] = [] := rfl

theorem stripLine_space_cons (y : List Char) : stripLine (' ' :: y) = stripLine y := by
  simp [stripLine, List.takeWhile_cons, List.filter_cons]

theorem stripLine_hash_cons (y : List Char) : stripLine ('#' :: y) = [] := by
  simp [stripLine, List.takeWhile_cons]

theorem stripLine_keep_cons (c : Char) (y : List Char) (h1 : c ≠ '#')
    (h2 : c ≠ ' ') : stripLine (c :: y) = c :: stripLine y := by
  simp [stripLine, List.takeWhile_cons, List.filter_cons, h1, h2]

theorem stripLine_replicate_space (j : Nat) (y : List Char) :
    stripLine (List.replicate j ' ' ++ y) = stripLine y := by
  induction j with
  | zero => simp
  | succ j ih =>
      rw [List.replicate_succ, List.cons_append, stripLine_space_cons, ih]

theorem stripLine_run_append (run y : List Char)
    (h : ∀ c ∈ run, c ≠ '#' ∧ c ≠ ' ') :
    stripLine (run ++ y) = run ++ stripLine y := by
  induction run with
  | nil => simp
  | cons c r ih =>
      have hc := h c (by simp)
      rw [List.cons_append, stripLine_keep_cons c _ hc.1 hc.2,
        ih (fun c' hc' => h c' (by simp [hc']))]
      rfl

theorem dropWhile_all {α : Type} (p : α → Bool) (x : List α)
    (h : ∀ c ∈ x, p c = true) : x.dropWhile p = [] :=
  (List.dropWhile_eq_nil_iff).mpr h

theorem specStripF_nil (fuel : Nat) : specStripF fuel [] = [] := by
  cases fuel <;> rfl

theorem specStrip_line (cs : List Char) (hnl : noNl cs) :
    specStripWsComments cs = stripLine cs := by
  suffices h : ∀ (fuel : Nat) (x : List Char), x.length + 1 ≤ fuel → noNl x →
      specStripF fuel x = stripLine x by
    exact h (cs.length + 1) cs (le_refl _) hnl
  intro fuel
  induction fuel with
  | zero => intro x hx _; omega
  | succ f ih =>
      intro x hx hnlx
      match x with
      | [] => rw [specStripF, stripLine_nil]
      | c :: rest =>
          have hc := hnlx c (by simp)
          have hnlr : noNl rest := fun c' hc' => hnlx c' (by simp [hc'])
          by_cases hhash : c = '#'
          · subst hhash
            rw [specStripF, if_pos rfl,
              dropWhile_all _ rest (fun c' hc' => by
                simp [(hnlr c' hc').1, (hnlr c' hc').2]),
              specStripF_nil, stripLine_hash_cons]
          · by_cases hsp : c = ' '
            · subst hsp
              rw [specStripF, if_neg (by decide), if_pos (by simp),
                stripLine_space_cons]
              exact ih rest (by simpa using hx) hnlr
            · rw [specStripF, if_neg hhash,
                if_neg (by simp [hsp, hc.1, hc.2]),
                stripLine_keep_cons c rest hhash hsp]
              rw [ih rest (by simpa using hx) hnlr]

theorem tokenFromChar_getD_ne_eof (c : Char) :
    (tokenFromChar c).getD (.Unknown c) ≠ .Eof := by
  unfold tokenFromChar
  split_ifs <;> simp

theorem tokenFromStr_getD_ne_eof (s : String) :
    (tokenFromStr s).getD (.Identifier s) ≠ .Eof := by
  cases hts : tokenFromStr s with
  | none => simp
  | some t => simpa using tokenFromStr_ne_eof s t hts

theorem drop_decompose_spaces (cs : List Char) (k j : Nat)
    (hsp : ∀ i, i < j → cs[k + i]? = some ' ') (hkj : k + j ≤ cs.length) :
    cs.drop k = List.replicate j ' ' ++ cs.drop (k + j) := by
  have hlen : ((cs.drop k).take j).length = j := by
    rw [List.length_take, List.length_drop]
    omega
  have h1 : (cs.drop k).take j = List.replicate j ' ' := by
    have := List.eq_replicate_of_mem (a := ' ') (l := (cs.drop k).take j) ?hmem
    · rwa [hlen] at this
    case hmem =>
      intro b hb
      rw [List.mem_iff_getElem] at hb
      obtain ⟨i, hi, hbi⟩ := hb
      have hij : i < j := by rw [hlen] at hi; exact hi
      have hq : ((cs.drop k).take j)[i]? = cs[k + i]? := by
        rw [List.getElem?_take, if_pos hij, List.getElem?_drop]
      rw [List.getElem?_eq_getElem hi, hbi, hsp i hij] at hq
      exact Option.some.inj hq
  calc cs.drop k = (cs.drop k).take j ++ (cs.drop k).drop j :=
        (List.take_append_drop _ _).symm
    _ = List.replicate j ' ' ++ cs.drop (k + j) := by
        rw [h1, List.drop_drop]

theorem spanText_single (cs : List Char) (hnl : noNl cs) (m : Nat)
    (hm : m < cs.length) : spanText cs ⟨0, m⟩ ⟨0, m⟩ = [cs[m]] := by
  rw [spanText_line cs hnl m m, List.drop_take, show m + 1 - m = 1 by omega,
    List.drop_eq_getElem_cons hm, List.take_succ_cons, List.take_zero]

theorem spanText_run (cs : List Char) (hnl : noNl cs) (m j2 : Nat)
    (hj2 : 1 ≤ j2) :
    spanText cs ⟨0, m⟩ ⟨0, m + j2 - 1⟩ = (cs.drop m).take j2 := by
  rw [spanText_line cs hnl, show m + j2 - 1 + 1 = m + j2 by omega,
    List.drop_take, show m + j2 - m = j2 by omega]

theorem spanConcat_nil (cs : List Char) : spanConcat cs [] = [] := rfl

theorem spanConcat_cons_ok (cs : List Char) (ts : TokenAndSpan)
    (rest : List (Except TokenizerError TokenAndSpan)) :
    spanConcat cs (.ok ts :: rest) =
      spanText cs ts.fromPos ts.toPos ++ spanConcat cs rest := by
  simp [spanConcat]

theorem allOk_cons_ok (ts : TokenAndSpan)
    (rest : List (Except TokenizerError TokenAndSpan)) :
    allOk (.ok ts :: rest) = allOk rest := by
  simp [allOk]

theorem allOk_cons_err (e : TokenizerError)
    (rest : List (Except TokenizerError TokenAndSpan)) :
    allOk (.error e :: rest) = false := by
  simp [allOk]

theorem length_takeWhile_le {α : Type} (p : α → Bool) (x : List α) :
    (x.takeWhile p).length ≤ x.length := by
  induction x with
  | nil => simp
  | cons a rest ih =>
      rw [List.takeWhile_cons]
      by_cases h : p a = true
      · rw [if_pos h]
        simpa using ih
      · rw [if_neg h]
        simp

theorem takeWhile_length_pos {α : Type} (p : α → Bool) (a : α) (x : List α)
    (h : p a = true) : 1 ≤ ((a :: x).takeWhile p).length := by
  rw [List.takeWhile_cons, if_pos h]
  simp

theorem tokenizeRun_strip (cs : List Char) (hnl : noNl cs) :
    ∀ (fuel k : Nat), k ≤ cs.length → cs.length - k + 1 ≤ fuel →
      allOk (tokenizeAllF fuel (lineState cs k)) = true →
      spanConcat cs (tokenizeAllF fuel (lineState cs k)) =
        stripLine (cs.drop k) := by
  intro fuel
  induction fuel with
  | zero => intro k hk hf _; omega
  | succ f ih =>
      intro k hk hf hok
      have hsp : ∀ i, i < ((cs.drop k).takeWhile fun c => c == ' ').length →
          cs[k + i]? = some ' ' := by
        intro i hi
        obtain ⟨c', hc', hp'⟩ := takeWhile_run _ (cs.drop k) i hi
        rw [List.getElem?_drop] at hc'
        rw [hc', show c' = ' ' by simpa using hp']
      set j := ((cs.drop k).takeWhile fun c => c == ' ').length with hj
      have hb : cs[k + j]? ≠ some ' ' := by
        intro hcs
        have := takeWhile_boundary (fun c => c == ' ') (cs.drop k) ' '
          (by rw [List.getElem?_drop]; exact hcs)
        simp at this
      have hkj : k + j ≤ cs.length := by
        have := length_takeWhile_le (fun c => c == ' ') (cs.drop k)
        rw [← hj, List.length_drop] at this
        omega
      have hdecomp : cs.drop k = List.replicate j ' ' ++ cs.drop (k + j) :=
        drop_decompose_spaces cs k j hsp hkj
      cases hck : cs[k + j]? with
      | none =>
          rw [tokenizeAllF_eof _ _ _ _ _
            (getToken_eof cs hnl k j hk hsp hb (Or.inl hck))]
          have hend : cs.drop (k + j) = [] := by
            apply List.drop_eq_nil_of_le
            by_contra hlt
            push_neg at hlt
            rw [List.getElem?_eq_getElem hlt] at hck
            cases hck
          rw [spanConcat_nil, hdecomp, hend, stripLine_replicate_space,
            stripLine_nil]
      | some c =>
          have hclt : k + j < cs.length := lt_of_getElem?_some hck
          have hcval : cs[k + j] = c := by
            rw [List.getElem?_eq_getElem hclt] at hck
            exact Option.some.inj hck
          have hdropc : cs.drop (k + j) = c :: cs.drop (k + j + 1) := by
            rw [List.drop_eq_getElem_cons hclt, hcval]
          have hcnesp : c ≠ ' ' := by
            intro hcc
            rw [hcc] at hck
            exact hb hck
          by_cases hhash : c = '#'
          · subst hhash
            rw [tokenizeAllF_eof _ _ _ _ _
              (getToken_eof cs hnl k j hk hsp hb (Or.inr hck))]
            rw [spanConcat_nil, hdecomp, stripLine_replicate_space, hdropc,
              stripLine_hash_cons]
          · by_cases hop : c = '('
            · subst hop
              rw [tokenizeAllF_tok _ _ _ _
                (getToken_open cs hnl k j hk hsp hb hck) (by simp)] at hok ⊢
              rw [allOk_cons_ok] at hok
              rw [spanConcat_cons_ok]
              have hsp1 : spanText cs ⟨0, k + j⟩ ⟨0, k + j⟩ = ['('] := by
                rw [spanText_single cs hnl (k + j) hclt, hcval]
              rw [hsp1, ih (k + j + 1) (by omega) (by omega) hok, hdecomp,
                stripLine_replicate_space, hdropc,
                stripLine_keep_cons _ _ (by decide) (by decide)]
              rfl
            · by_cases hcp : c = ')'
              · subst hcp
                rw [tokenizeAllF_tok _ _ _ _
                  (getToken_close cs hnl k j hk hsp hb hck) (by simp)] at hok ⊢
                rw [allOk_cons_ok] at hok
                rw [spanConcat_cons_ok]
                have hsp1 : spanText cs ⟨0, k + j⟩ ⟨0, k + j⟩ = [')'] := by
                  rw [spanText_single cs hnl (k + j) hclt, hcval]
                rw [hsp1, ih (k + j + 1) (by omega) (by omega) hok, hdecomp,
                  stripLine_replicate_space, hdropc,
                  stripLine_keep_cons _ _ (by decide) (by decide)]
                rfl
              · by_cases hca : isAlphabeticChar c = true
                · have hGT := getToken_ident cs hnl k j c hk hsp hb hck hca
                  set j2 := ((cs.drop (k + j)).takeWhile isIdentifierLikeChar).length
                    with hj2
                  have hj2pos : 1 ≤ j2 := by
                    rw [hj2, hdropc]
                    exact takeWhile_length_pos _ c _ (alphaChar_identLike c hca)
                  have hj2le : k + j + j2 ≤ cs.length := by
                    have := length_takeWhile_le isIdentifierLikeChar (cs.drop (k + j))
                    rw [← hj2, List.length_drop] at this
                    omega
                  rw [tokenizeAllF_tok _ _ _ _ hGT
                    (tokenFromStr_getD_ne_eof _)] at hok ⊢
                  rw [allOk_cons_ok] at hok
                  rw [spanConcat_cons_ok]
                  have hrun : spanText cs ⟨0, k + j⟩ ⟨0, k + j + j2 - 1⟩ =
                      (cs.drop (k + j)).take j2 :=
                    spanText_run cs hnl (k + j) j2 hj2pos
                  have hrun2 : (cs.drop (k + j)).take j2 =
                      (cs.drop (k + j)).takeWhile isIdentifierLikeChar :=
                    (takeWhile_eq_take _ _).symm
                  have hdecomp2 : cs.drop (k + j) =
                      (cs.drop (k + j)).takeWhile isIdentifierLikeChar ++
                        cs.drop (k + j + j2) := by
                    conv_lhs => rw [← List.take_append_drop j2 (cs.drop (k + j))]
                    rw [hrun2, List.drop_drop]
                  rw [hrun, hrun2, ih (k + j + j2) (by omega) (by omega) hok,
                    hdecomp, stripLine_replicate_space]
                  conv_rhs => rw [hdecomp2]
                  rw [stripLine_run_append _ _ (fun c' hc' =>
                    ⟨(identLikeChar_not_special c' (List.mem_takeWhile_imp hc')).1,
                     (identLikeChar_not_special c' (List.mem_takeWhile_imp hc')).2.1⟩)]
                · by_cases hcn : isNumberLikeChar c = true
                  · have hGT := getToken_number cs hnl k j c hk hsp hb hck hcn
                    set j2 := ((cs.drop (k + j)).takeWhile isNumberLikeChar).length
                      with hj2
                    cases hfv : floatOfNumChars
                        ((cs.drop (k + j)).takeWhile isNumberLikeChar) with
                    | none =>
                        simp only [hfv] at hGT
                        rw [tokenizeAllF_err _ _ _ _ hGT, allOk_cons_err] at hok
                        cases hok
                    | some v =>
                        simp only [hfv] at hGT
                        have hj2pos : 1 ≤ j2 := by
                          rw [hj2, hdropc]
                          exact takeWhile_length_pos _ c _ hcn
                        have hj2le : k + j + j2 ≤ cs.length := by
                          have := length_takeWhile_le isNumberLikeChar (cs.drop (k + j))
                          rw [← hj2, List.length_drop] at this
                          omega
                        rw [tokenizeAllF_tok _ _ _ _ hGT (by simp)] at hok ⊢
                        rw [allOk_cons_ok] at hok
                        rw [spanConcat_cons_ok]
                        have hrun : spanText cs ⟨0, k + j⟩ ⟨0, k + j + j2 - 1⟩ =
                            (cs.drop (k + j)).take j2 :=
                          spanText_run cs hnl (k + j) j2 hj2pos
                        have hrun2 : (cs.drop (k + j)).take j2 =
                            (cs.drop (k + j)).takeWhile isNumberLikeChar :=
                          (takeWhile_eq_take _ _).symm
                        have hdecomp2 : cs.drop (k + j) =
                            (cs.drop (k + j)).takeWhile isNumberLikeChar ++
                              cs.drop (k + j + j2) := by
                          conv_lhs =>
                            rw [← List.take_append_drop j2 (cs.drop (k + j))]
                          rw [hrun2, List.drop_drop]
                        rw [hrun, hrun2, ih (k + j + j2) (by omega) (by omega) hok,
                          hdecomp, stripLine_replicate_space]
                        conv_rhs => rw [hdecomp2]
                        rw [stripLine_run_append _ _ (fun c' hc' =>
                          ⟨(numberLikeChar_not_special c' (List.mem_takeWhile_imp hc')).1,
                           (numberLikeChar_not_special c' (List.mem_takeWhile_imp hc')).2.1⟩)]
                  · have hGT := getToken_single cs hnl k j c hk hsp hb hck hhash
                      hop hcp (Bool.eq_false_iff.mpr (fun h => hca h))
                      (Bool.eq_false_iff.mpr (fun h => hcn h))
                    rw [tokenizeAllF_tok _ _ _ _ hGT
                      (tokenFromChar_getD_ne_eof c)] at hok ⊢
                    rw [allOk_cons_ok] at hok
                    rw [spanConcat_cons_ok]
                    have hsp1 : spanText cs ⟨0, k + j⟩ ⟨0, k + j⟩ = [c] := by
                      rw [spanText_single cs hnl (k + j) hclt, hcval]
                    rw [hsp1, ih (k + j + 1) (by omega) (by omega) hok, hdecomp,
                      stripLine_replicate_space, hdropc,
                      stripLine_keep_cons _ _ hhash hcnesp]
                    rfl

/-- Claim C9 as amended: the round-trip holds for newline-free inputs.  For
every input without newline or carriage return characters on which
tokenization succeeds, concatenating the source text covered by the literal
spans of all produced tokens, in stream order, recovers exactly the original
input with all whitespace and comment content removed.  (Inputs containing
newlines break the round-trip: a newline is whitespace but is emitted as an
`Unknown` token whose span covers it — see the counterexample.) -/
theorem c9_amended :
    ∀ cs : List Char, noNl cs →
      allOk (tokenizeInput cs) = true →
      spanConcat cs (tokenizeInput cs) = specStripWsComments cs := by
  intro cs hnl hok
  have h0 : ∀ c, cs[0]? = some c → c ≠ '\n' ∧ c ≠ '\r' :=
    fun c hc => hnl c (mem_of_getElem?_some hc)
  rw [tokenizeInput_eq cs h0] at hok ⊢
  rw [specStrip_line cs hnl]
  have := tokenizeRun_strip cs hnl ((cs.drop 1).length + 3) 0 (by omega)
    (by rw [List.length_drop]; omega) hok
  rw [List.drop_zero] at this
  exact this

/-- Witness for `c9_amended` at the concrete input `"(+ 1 2)"`. -/
theorem c9_amended_witness :
    spanConcat "(+ 1 2)".toList (tokenizeInput "(+ 1 2)".toList) =
      specStripWsComments "(+ 1 2)".toList :=
  c9_amended "(+ 1 2)".toList (by decide) (by decide)
